import Mathlib

/-!
# Verification of the SDL layered graph-drawing core

Shallow embedding of the layout/routing core shared by the interactive
authoring tool (source file `part_002`, namespace `Authoring`) and the
static renderer (source file `part_003`, namespace `Renderer`).

Modelling conventions:
* JavaScript numbers are modelled as rationals (`ℚ`); all arithmetic in the
  embedded code paths is exact on the inputs the algorithms produce
  (integer pixel constants, means of integer indices, fixed fractions).
* JavaScript objects used as string-keyed dictionaries are modelled as
  association lists written in insertion order; a later write to the same
  key shadows an earlier one, so lookup (`jsGet`) returns the last binding.
* `Array.prototype.sort` with a consistent numeric comparator is required
  by the ECMAScript standard to be a stable sort; it is modelled once by
  `stableSort` (a stable insertion sort) and used by both embeddings.
* `Set` insertion-ordered deduplication is modelled by `insertOnce`.
-/

/-- A diagram node: identifier and kind (layer category).  The source
records also carry a display label and other rendering-only fields that the
layout core never reads; they are omitted. -/
structure Node where
  id : String
  kind : String
deriving DecidableEq, Repr

/-- A diagram edge: identifier, source node id, target node id.  The
protocol / direction / label fields only affect colours, dash patterns and
arrowheads, not the layout or routing geometry, and are omitted. -/
structure Edge where
  id : String
  source : String
  target : String
deriving DecidableEq, Repr

/-- Lookup in a JS-object-as-association-list: the last write wins. -/
def jsGet {κ β : Type} [BEq κ] (m : List (κ × β)) (k : κ) : Option β :=
  (m.reverse.find? (fun q => q.1 == k)).map (·.2)

/-- `Set.prototype.add`: append the element unless already present. -/
def insertOnce (l : List String) (x : String) : List String :=
  if x ∈ l then l else l ++ [x]

/-- Stable insertion of `x` after every element `y` with `le y x`. -/
def insertLE {α : Type} (le : α → α → Bool) (x : α) : List α → List α
  | [] => [x]
  | y :: ys => if le y x then y :: insertLE le x ys else x :: y :: ys

/-- Stable sort (models `Array.prototype.sort` with a consistent
comparator: elements comparing equal keep their original relative order). -/
def stableSort {α : Type} (le : α → α → Bool) (l : List α) : List α :=
  l.foldl (fun acc x => insertLE le x acc) []

/-- `f` applied `n` times to `x` (the state of an imperative loop after
`n` iterations). -/
def iterApp {α : Type} (f : α → α) (x : α) : ℕ → α
  | 0 => x
  | n + 1 => f (iterApp f x n)

/-- `c < bestX` where `bestX : Option ℕ` models a `bestCrossings`
variable initialised to `Infinity` (`none`). -/
def ltOpt (c : ℕ) : Option ℕ → Bool
  | none => true
  | some b => decide (c < b)

/-- The `for (let round = 0; round < 4; round++)` best-tracking loop,
parameterised by the per-round transformation and the cost measured once
after each round: carries the current state, the best state seen and its
cost. -/
def bestRounds {α : Type} (step : α → α) (cost : α → ℕ) :
    ℕ → α → α × Option ℕ → α × Option ℕ
  | 0, _, acc => acc
  | n + 1, layers, acc =>
    let layers' := step layers
    let c := cost layers'
    bestRounds step cost n layers'
      (if ltOpt c acc.2 then (layers', some c) else acc)

/-- All ordered pairs (i < j) of a list — the nested loop
`for i … for j = i+1 …`. -/
def ordPairs {α : Type} : List α → List (α × α)
  | [] => []
  | x :: xs => xs.map (fun y => (x, y)) ++ ordPairs xs

namespace Authoring

/-! Embedding of the authoring tool's layout engine (`part_002`). -/

/-- `LAYER_ORDER` (part_002 lines 233-240). -/
def LAYER_ORDER : List (List String) :=
  [["actor", "frontend", "mobile-app", "cli"],
   ["cdn", "load-balancer", "gateway"],
   ["identity-provider", "microservice", "monolith", "serverless-function",
    "scheduler", "data-pipeline", "ml-model"],
   ["message-broker", "message-queue"],
   ["database", "cache", "object-storage"],
   ["external-api"]]

/-- `assignLayer` (part_002 lines 243-246): first row of `LAYER_ORDER`
containing the kind, default 2.  (`List.findIdx` returns the list length
when no row matches, hence the guard.) -/
def assignLayer (kind : String) : ℕ :=
  let i := LAYER_ORDER.findIdx (fun row => kind ∈ row)
  if i < LAYER_ORDER.length then i else 2

/-- Fixed layout constants (part_002 line 241). -/
def LAYER_X_GAP : ℚ := 210
def NODE_Y_GAP : ℚ := 90
def MARGIN : ℚ := 52

/-- `nodeDims` (part_002 lines 247-250): `(w, h)` per kind.
`NODE_W=150, NODE_H=62`; `SHAPES = {diamond:{76,76}, cylinder:{136,68},
person:{58,76}}`; kinds map database/cache → cylinder, gateway /
load-balancer → diamond, actor → person, else the default rectangle. -/
def nodeDims (kind : String) : ℚ × ℚ :=
  if kind = "database" ∨ kind = "cache" then (136, 68)
  else if kind = "gateway" ∨ kind = "load-balancer" then (76, 76)
  else if kind = "actor" then (58, 76)
  else (150, 62)

/-- `buildAdj` (part_002 lines 251-256) viewed as a function from a node
id to its (insertion-ordered, deduplicated) undirected neighbour list.
Ids not in the node list get no adjacency entry (empty list). -/
def buildAdj (nodes : List Node) (edges : List Edge) (id : String) :
    List String :=
  if nodes.any (fun n => n.id == id) then
    edges.foldl (fun acc e =>
      let acc1 := if e.source == id then insertOnce acc e.target else acc
      if e.target == id then insertOnce acc1 e.source else acc1) []
  else []

/-- The `fp` map built by `layer.forEach((n,j)=>{fp[n.id]=j})`: a node
id's index in the given layer (last occurrence wins, as JS overwrites). -/
def fpOf (layer : List Node) (id : String) : Option ℕ :=
  (layer.enum.reverse.find? (fun p => p.2.id == id)).map (·.1)

/-- The barycenter sort key of `bcSort` (part_002 lines 257-262): mean of
the positions (in the fixed adjacent layer `fp`) of the node's neighbours
that appear in `fp`; when there are none, `fp[n.id] ?? 999`. -/
def bcKey (adj : String → List String) (fp : String → Option ℕ)
    (n : Node) : ℚ :=
  let nb := (adj n.id).filter (fun j => (fp j).isSome)
  if nb.isEmpty then (((fp n.id).map (Nat.cast : ℕ → ℚ)).getD 999)
  else ((nb.map (fun j => (((fp j).getD 0 : ℕ) : ℚ))).sum) / (nb.length : ℚ)

/-- `bcSort` (part_002 lines 257-262): key every node, stably sort by key
ascending, project the nodes back out. -/
def bcSort (layer : List Node) (adj : String → List String)
    (fp : String → Option ℕ) : List Node :=
  ((layer.map (fun n => (n, bcKey adj fp n))).foldl
      (fun acc x => insertLE (fun a b => decide (a.2 ≤ b.2)) x acc) []).map
    (·.1)

/-- Forward-sweep worker: each layer is re-sorted against the *updated*
previous layer (part_002 line 271). -/
def fwdAux (adj : String → List String) :
    List Node → List (List Node) → List (List Node)
  | _, [] => []
  | prev, l :: rest =>
    let l' := bcSort l adj (fpOf prev)
    l' :: fwdAux adj l' rest

/-- Forward sweep: layers 1..n-1 re-sorted left to right; layer 0 fixed. -/
def forwardSweep (adj : String → List String) :
    List (List Node) → List (List Node)
  | [] => []
  | l0 :: rest => l0 :: fwdAux adj l0 rest

/-- Backward sweep (part_002 line 272): layers n-2..0 re-sorted right to
left against the updated next layer — the forward sweep on the reversed
layer list. -/
def backwardSweep (adj : String → List String)
    (ls : List (List Node)) : List (List Node) :=
  (forwardSweep adj ls.reverse).reverse

/-- The segment-crossing test body (part_002 lines 277-280): endpoint
ranks via `?? `-fallback, crossing iff the rank differences have opposite
signs. -/
def crossTest (pA pB : String → Option ℕ) (e1 e2 : Edge) : Bool :=
  let a1 := (pA e1.source).or (pA e1.target)
  let b1 := (pB e1.target).or (pB e1.source)
  let a2 := (pA e2.source).or (pA e2.target)
  let b2 := (pB e2.target).or (pB e2.source)
  match a1, b1, a2, b2 with
  | some a1, some b1, some a2, some b2 =>
    decide (((a1 : ℤ) - (a2 : ℤ)) * ((b1 : ℤ) - (b2 : ℤ)) < 0)
  | _, _, _, _ => false

/-- Crossing count between two adjacent layers (inlined in `layout`,
part_002 lines 273-282): filter the edges spanning the two layers, count
inverted pairs. -/
def countCrossings (layerA layerB : List Node) (edges : List Edge) : ℕ :=
  let pA := fpOf layerA
  let pB := fpOf layerB
  let rel := edges.filter (fun e =>
    ((pA e.source).isSome && (pB e.target).isSome) ||
    ((pB e.source).isSome && (pA e.target).isSome))
  ((ordPairs rel).filter (fun p => crossTest pA pB p.1 p.2)).length

/-- Total crossings summed over every adjacent layer pair. -/
def totalCrossings (edges : List Edge) (ls : List (List Node)) : ℕ :=
  ((ls.zip ls.tail).map (fun p => countCrossings p.1 p.2 edges)).sum

/-- The distinct layer indices present, ascending (JS `Object.keys` on
integer keys enumerates ascending; `assignLayer` is always `< 6`). -/
def layerIdxsOf (nodes : List Node) : List ℕ :=
  (List.range 6).filter (fun i => nodes.any (fun n => assignLayer n.kind == i))

/-- Initial per-layer grouping, input order preserved inside a layer. -/
def initLayers (nodes : List Node) : List (List Node) :=
  (layerIdxsOf nodes).map (fun i =>
    nodes.filter (fun n => assignLayer n.kind == i))

/-- One heuristic round (part_002 lines 271-272): forward then backward
sweep. -/
def roundStep (nodes : List Node) (edges : List Edge)
    (ls : List (List Node)) : List (List Node) :=
  backwardSweep (buildAdj nodes edges) (forwardSweep (buildAdj nodes edges) ls)

/-- The ordering returned by the 4-round best-tracking loop
(part_002 lines 269-284). -/
def bestLayers (nodes : List Node) (edges : List Edge) : List (List Node) :=
  (bestRounds (roundStep nodes edges) (totalCrossings edges) 4
    (initLayers nodes) (initLayers nodes, none)).1

/-- A computed node position (part_002 line 288). -/
structure Pos where
  x : ℚ
  y : ℚ
  layer : ℕ
deriving DecidableEq, Repr

/-- Pixel placement (part_002 lines 285-289): for the node at index `i`
of the layer with layer index `li`, `x = MARGIN + li·LAYER_X_GAP` and
`y = MARGIN + i·(h + NODE_Y_GAP)` where `h` is that node's own height. -/
def place (layerIdxs : List ℕ) (ls : List (List Node)) :
    List (String × Pos) :=
  (layerIdxs.zip ls).flatMap (fun q =>
    q.2.enum.map (fun p =>
      (p.2.id,
       ⟨MARGIN + (q.1 : ℚ) * LAYER_X_GAP,
        MARGIN + (p.1 : ℚ) * ((nodeDims p.2.kind).2 + NODE_Y_GAP),
        q.1⟩)))

/-- `layout` (part_002 lines 263-291). -/
def layout (nodes : List Node) (edges : List Edge) : List (String × Pos) :=
  place (layerIdxsOf nodes) (bestLayers nodes edges)

/-- `nodes.find(n => n.id === id)` — first node with the given id. -/
def findNode (nodes : List Node) (id : String) : Option Node :=
  nodes.find? (fun n => n.id == id)

/-- `(sideMap[k] = (sideMap[k] || []).concat(v))`: append `v` to the entry
for `k`, creating it (at the end, preserving JS object key insertion
order) when absent. -/
def addEdge (m : List (String × List String)) (k v : String) :
    List (String × List String) :=
  if m.any (fun q => q.1 == k) then
    m.map (fun q => if q.1 == k then (q.1, q.2 ++ [v]) else q)
  else m ++ [(k, [v])]

/-- The `(rightEdges, leftEdges)` side-grouping loop of `buildPortsLive`
(part_002 lines 345-353): an edge whose endpoints both have positions and
node records goes to the source's right / target's left group when the
source's horizontal centre is ≤ the target's, otherwise the sides swap;
edges with a missing endpoint are skipped. -/
def sideMaps (edges : List Edge) (positions : List (String × Pos))
    (nodes : List Node) :
    List (String × List String) × List (String × List String) :=
  edges.foldl (fun acc e =>
    match jsGet positions e.source, jsGet positions e.target with
    | some sp, some tp =>
      match findNode nodes e.source, findNode nodes e.target with
      | some sn, some tn =>
        let toR := decide
          (sp.x + (nodeDims sn.kind).1 / 2 ≤ tp.x + (nodeDims tn.kind).1 / 2)
        let acc1 := if toR then (addEdge acc.1 e.source e.id, acc.2)
                    else (acc.1, addEdge acc.2 e.source e.id)
        if toR then (acc1.1, addEdge acc1.2 e.target e.id)
        else (addEdge acc1.1 e.target e.id, acc1.2)
      | _, _ => acc
    | _, _ => acc) ([], [])

/-- The per-group port formula of `assignPorts` (part_002 lines 305-306):
`pad = h*0.2`; a single edge gets the vertical midpoint `y + h/2`, a group
of `c ≥ 2` edges gets `y + pad + (i/(c-1))*(h - pad*2)` for its `i`-th
edge. -/
def portsForGroup (h y : ℚ) (eids : List String) : List (String × ℚ) :=
  eids.enum.map (fun p =>
    (p.2,
     if eids.length = 1 then y + h / 2
     else y + h * (1/5) +
       ((p.1 : ℚ) / ((eids.length : ℚ) - 1)) * (h - h * (1/5) * 2)))

/-- The `assign(sideMap)` loop of `buildPortsLive` (part_002 lines
301-308): for each group whose node has a position and a node record,
append the group's ports to the `(edgeId, nodeId) ↦ y` index. -/
def assignPorts (positions : List (String × Pos)) (nodes : List Node)
    (sm : List (String × List String))
    (py : List ((String × String) × ℚ)) : List ((String × String) × ℚ) :=
  sm.foldl (fun py q =>
    match jsGet positions q.1, findNode nodes q.1 with
    | some p, some n =>
      py ++ (portsForGroup (nodeDims n.kind).2 p.y q.2).map
        (fun r => ((r.1, q.1), r.2))
    | _, _ => py) py

/-- `buildPortsLive` (part_002 lines 344-364): group by (node, side) from
live coordinates, then assign ports, right side groups first. -/
def buildPortsLive (edges : List Edge) (positions : List (String × Pos))
    (nodes : List Node) : List ((String × String) × ℚ) :=
  let sm := sideMaps edges positions nodes
  assignPorts positions nodes sm.2 (assignPorts positions nodes sm.1 [])

/-- The geometry of one routed edge: endpoints, control-point reach `dxv`,
label midpoint and chosen direction.  The source's SVG path string
`M sx,sy C sx±dxv,sy tx∓dxv,ty tx,ty` is a rendering of these fields and
is not modelled as a string. -/
structure PathGeom where
  sx : ℚ
  sy : ℚ
  tx : ℚ
  ty : ℚ
  dxv : ℚ
  mx : ℚ
  my : ℚ
  toRight : Bool
deriving DecidableEq, Repr

/-- `edgePath` (part_002 lines 328-341): `null` when an endpoint has no
position or no node record; otherwise the side selection from live
horizontal centres, the spread port y (falling back to the vertical
midpoint), and the bezier control distance
`max(|tx - sx| * 0.45, 40)`. -/
def edgePath (e : Edge) (positions : List (String × Pos))
    (nodes : List Node) (py : List ((String × String) × ℚ)) :
    Option PathGeom :=
  match jsGet positions e.source, jsGet positions e.target with
  | some sp, some tp =>
    match findNode nodes e.source, findNode nodes e.target with
    | some sn, some tn =>
      let sw := (nodeDims sn.kind).1
      let sh := (nodeDims sn.kind).2
      let tw := (nodeDims tn.kind).1
      let th := (nodeDims tn.kind).2
      let toR := decide (sp.x + sw / 2 ≤ tp.x + tw / 2)
      let srcY := (jsGet py (e.id, e.source)).getD (sp.y + sh / 2)
      let tgtY := (jsGet py (e.id, e.target)).getD (tp.y + th / 2)
      let sx := if toR then sp.x + sw else sp.x
      let tx := if toR then tp.x else tp.x + tw
      let dxv := max (|tx - sx| * (45/100)) 40
      some ⟨sx, srcY, tx, tgtY, dxv, (sx + tx) / 2, (srcY + tgtY) / 2, toR⟩
    | _, _ => none
  | _, _ => none

/-- The functional state update of `onSVGMove` (part_002 lines 758-761):
replace the dragged node's x/y, spreading the previous record (so the
layer index is kept).  A drag can only start on a node present in the
position map (`onNodeDown` reads `nodePositions[nodeId].x` first), so the
missing-entry case is unreachable and modelled as a no-op. -/
def dragUpdate (positions : List (String × Pos)) (nid : String)
    (nx ny : ℚ) : List (String × Pos) :=
  match jsGet positions nid with
  | some p => positions ++ [(nid, ⟨nx, ny, p.layer⟩)]
  | none => positions

/-- Lexicographic comparison of character lists by code point. -/
def charListLE : List Char → List Char → Bool
  | [], _ => true
  | _ :: _, [] => false
  | a :: as, b :: bs =>
    if a.toNat < b.toNat then true
    else if b.toNat < a.toNat then false
    else charListLE as bs

/-- JS default string comparison (`Array.prototype.sort` with no
comparator): lexicographic.  Code-point order agrees with JS's code-unit
order on all of the basic-multilingual-plane identifiers the schema
allows. -/
def strLE (a b : String) : Bool := charListLE a.data b.data

/-- `Array.prototype.join("|")`. -/
def joinBar : List String → String
  | [] => ""
  | [x] => x
  | x :: y :: xs => x ++ "|" ++ joinBar (y :: xs)

/-- `layoutKey` (part_002 lines 376-379):
`"layout:" + [...nodes].map(n=>n.id).sort().join("|")`. -/
def layoutKey (nodes : List Node) : String :=
  "layout:" ++ joinBar (stableSort strLE (nodes.map (·.id)))

/-- The saved-layout merge of the positions effect (part_002 lines
474-480): for every key of the computed layout, take the saved x/y when
the saved record has this node id, otherwise keep the computed entry;
the computed layer index is never overridden.  (This is the
`mergeLayout` contract of the spec.) -/
def mergeLayout (base : List (String × Pos))
    (saved : List (String × (ℚ × ℚ))) : List (String × Pos) :=
  base.map (fun q =>
    match jsGet saved q.1 with
    | some s => (q.1, ⟨s.1, s.2, q.2.layer⟩)
    | none => q)

/-- The whole positions effect (part_002 lines 463-489): compute the
layout, look the persisted record up under `layoutKey`, and merge it in
when found. -/
def appPositions (store : List (String × List (String × (ℚ × ℚ))))
    (nodes : List Node) (edges : List Edge) : List (String × Pos) :=
  let base := layout nodes edges
  match jsGet store (layoutKey nodes) with
  | some saved => mergeLayout base saved
  | none => base

end Authoring

namespace Renderer

/-! Embedding of the static renderer's layout engine (`part_003`).  The
renderer duplicates the authoring tool's algorithm but reads its constants
and node dimensions from a theme file. -/

/-- The theme fields the layout core reads.  `shapes` maps a shape name to
optional width/height overrides (`theme.nodes.shapes`); `corner_radius` is
rendering-only and omitted. -/
structure Theme where
  layer_spacing_x : ℚ
  node_spacing_y : ℚ
  margin : ℚ
  nodes_width : ℚ
  nodes_height : ℚ
  shapes : String → Option (Option ℚ × Option ℚ)

/-- JS `a || b` on numbers: `b` when `a` is absent or falsy (`0`). -/
def jsOrNum (o : Option ℚ) (dflt : ℚ) : ℚ :=
  match o with
  | some v => if v = 0 then dflt else v
  | none => dflt

/-- `getShapeForKind` (part_003 lines 199-206). -/
def getShapeForKind (kind : String) : String :=
  if kind = "database" ∨ kind = "cache" then "cylinder"
  else if kind = "gateway" ∨ kind = "load-balancer" then "diamond"
  else if kind = "actor" then "person"
  else "rectangle"

/-- `getNodeDims` (part_003 lines 188-197): the theme's per-shape override
falling back (via `||`) to the theme's default node width/height. -/
def getNodeDims (kind : String) (thm : Theme) : ℚ × ℚ :=
  let override := (thm.shapes (getShapeForKind kind)).getD (none, none)
  (jsOrNum override.1 thm.nodes_width, jsOrNum override.2 thm.nodes_height)

/-- `LAYER_ORDER` (part_003 lines 63-70) — same table as the authoring
tool. -/
def LAYER_ORDER : List (List String) :=
  [["actor", "frontend", "mobile-app", "cli"],
   ["cdn", "load-balancer", "gateway"],
   ["identity-provider", "microservice", "monolith", "serverless-function",
    "scheduler", "data-pipeline", "ml-model"],
   ["message-broker", "message-queue"],
   ["database", "cache", "object-storage"],
   ["external-api"]]

/-- `assignLayer` (part_003 lines 72-77). -/
def assignLayer (kind : String) : ℕ :=
  let i := LAYER_ORDER.findIdx (fun row => kind ∈ row)
  if i < LAYER_ORDER.length then i else 2

/-- `buildAdjacency` (part_003 lines 81-89). -/
def buildAdjacency (nodes : List Node) (edges : List Edge) (id : String) :
    List String :=
  if nodes.any (fun n => n.id == id) then
    edges.foldl (fun acc e =>
      let acc1 := if e.source == id then insertOnce acc e.target else acc
      if e.target == id then insertOnce acc1 e.source else acc1) []
  else []

/-- The `fp` / `posA` / `posB` index maps (`forEach` assignment). -/
def fpOf (layer : List Node) (id : String) : Option ℕ :=
  (layer.enum.reverse.find? (fun p => p.2.id == id)).map (·.1)

/-- The barycenter key of `barycenterSort` (part_003 lines 115-126). -/
def bcKey (adj : String → List String) (fp : String → Option ℕ)
    (n : Node) : ℚ :=
  let nb := (adj n.id).filter (fun j => (fp j).isSome)
  if nb.isEmpty then (((fp n.id).map (Nat.cast : ℕ → ℚ)).getD 999)
  else ((nb.map (fun j => (((fp j).getD 0 : ℕ) : ℚ))).sum) / (nb.length : ℚ)

/-- `barycenterSort` (part_003 lines 115-126). -/
def barycenterSort (layer : List Node) (adj : String → List String)
    (fp : String → Option ℕ) : List Node :=
  ((layer.map (fun n => (n, bcKey adj fp n))).foldl
      (fun acc x => insertLE (fun a b => decide (a.2 ≤ b.2)) x acc) []).map
    (·.1)

/-- Forward-sweep worker (part_003 lines 148-152). -/
def fwdAux (adj : String → List String) :
    List Node → List (List Node) → List (List Node)
  | _, [] => []
  | prev, l :: rest =>
    let l' := barycenterSort l adj (fpOf prev)
    l' :: fwdAux adj l' rest

/-- Forward sweep. -/
def forwardSweep (adj : String → List String) :
    List (List Node) → List (List Node)
  | [] => []
  | l0 :: rest => l0 :: fwdAux adj l0 rest

/-- Backward sweep (part_003 lines 154-158). -/
def backwardSweep (adj : String → List String)
    (ls : List (List Node)) : List (List Node) :=
  (forwardSweep adj ls.reverse).reverse

/-- The crossing test of `countCrossings` (part_003 lines 100-110). -/
def crossTest (pA pB : String → Option ℕ) (e1 e2 : Edge) : Bool :=
  let a1 := (pA e1.source).or (pA e1.target)
  let b1 := (pB e1.target).or (pB e1.source)
  let a2 := (pA e2.source).or (pA e2.target)
  let b2 := (pB e2.target).or (pB e2.source)
  match a1, b1, a2, b2 with
  | some a1, some b1, some a2, some b2 =>
    decide (((a1 : ℤ) - (a2 : ℤ)) * ((b1 : ℤ) - (b2 : ℤ)) < 0)
  | _, _, _, _ => false

/-- `countCrossings` (part_003 lines 91-113). -/
def countCrossings (layerA layerB : List Node) (edges : List Edge) : ℕ :=
  let pA := fpOf layerA
  let pB := fpOf layerB
  let rel := edges.filter (fun e =>
    ((pA e.source).isSome && (pB e.target).isSome) ||
    ((pB e.source).isSome && (pA e.target).isSome))
  ((ordPairs rel).filter (fun p => crossTest pA pB p.1 p.2)).length

/-- Total crossings over adjacent layer pairs (part_003 lines 159-162). -/
def totalCrossings (edges : List Edge) (ls : List (List Node)) : ℕ :=
  ((ls.zip ls.tail).map (fun p => countCrossings p.1 p.2 edges)).sum

/-- The distinct layer indices present, ascending (part_003 line 137). -/
def layerIdxsOf (nodes : List Node) : List ℕ :=
  (List.range 6).filter (fun i => nodes.any (fun n => assignLayer n.kind == i))

/-- Initial grouping (part_003 lines 132-138). -/
def initLayers (nodes : List Node) : List (List Node) :=
  (layerIdxsOf nodes).map (fun i =>
    nodes.filter (fun n => assignLayer n.kind == i))

/-- One heuristic round (part_003 lines 147-158). -/
def roundStep (nodes : List Node) (edges : List Edge)
    (ls : List (List Node)) : List (List Node) :=
  backwardSweep (buildAdjacency nodes edges)
    (forwardSweep (buildAdjacency nodes edges) ls)

/-- The 4-round best-tracking loop (part_003 lines 142-169). -/
def bestLayers (nodes : List Node) (edges : List Edge) : List (List Node) :=
  (bestRounds (roundStep nodes edges) (totalCrossings edges) 4
    (initLayers nodes) (initLayers nodes, none)).1

/-- A renderer position record (part_003 line 179). -/
structure PosR where
  x : ℚ
  y : ℚ
  layer : ℕ
  indexInLayer : ℕ
  layerSize : ℕ
deriving DecidableEq, Repr

/-- Pixel placement (part_003 lines 171-183). -/
def place (thm : Theme) (layerIdxs : List ℕ) (ls : List (List Node)) :
    List (String × PosR) :=
  (layerIdxs.zip ls).flatMap (fun q =>
    q.2.enum.map (fun p =>
      (p.2.id,
       ⟨thm.margin + (q.1 : ℚ) * thm.layer_spacing_x,
        thm.margin + (p.1 : ℚ) * ((getNodeDims p.2.kind thm).2 + thm.node_spacing_y),
        q.1, p.1, q.2.length⟩)))

/-- `computeLayout` (part_003 lines 128-184). -/
def computeLayout (nodes : List Node) (edges : List Edge) (thm : Theme) :
    List (String × PosR) :=
  place thm (layerIdxsOf nodes) (bestLayers nodes edges)

/-- The saved-layout overlay of `run` (part_003 lines 807-817): for every
node whose id has a saved entry, replace the computed x/y, spreading the
rest of the computed record.  (`computeLayout` positions every node, so
the missing-position branch is unreachable; it is modelled with zeroed
derived fields, matching the JS spread of `undefined`.) -/
def runMerge (nodes : List Node) (positions : List (String × PosR))
    (saved : List (String × (ℚ × ℚ))) : List (String × PosR) :=
  nodes.foldl (fun ps n =>
    match jsGet saved n.id with
    | some s =>
      match jsGet ps n.id with
      | some p => ps ++ [(n.id, ⟨s.1, s.2, p.layer, p.indexInLayer, p.layerSize⟩)]
      | none => ps ++ [(n.id, ⟨s.1, s.2, 0, 0, 0⟩)]
    | none => ps) positions

end Renderer

/-! ## Generic lemmas about the modelled JS library functions -/

section SortLemmas

variable {α : Type} (le : α → α → Bool)

theorem insertLE_perm (x : α) : ∀ l : List α, List.Perm (insertLE le x l) (x :: l)
  | [] => List.Perm.refl _
  | y :: ys => by
    unfold insertLE
    split
    · exact ((insertLE_perm x ys).cons y).trans (List.Perm.swap x y ys)
    · exact List.Perm.refl _

theorem foldl_insertLE_perm :
    ∀ (l acc : List α),
      List.Perm (l.foldl (fun acc x => insertLE le x acc) acc) (acc ++ l)
  | [], acc => by simp
  | x :: xs, acc => by
    refine ((foldl_insertLE_perm xs (insertLE le x acc)).trans ?_)
    refine ((insertLE_perm le x acc).append_right xs).trans ?_
    exact List.perm_middle.symm


theorem stableSort_perm (l : List α) : List.Perm (stableSort le l) l := by
  simpa [stableSort] using foldl_insertLE_perm le l []

theorem insertLE_pairwise
    (hTot : ∀ a b, le a b = false → le b a = true)
    (hTrans : ∀ a b c, le a b = true → le b c = true → le a c = true)
    (x : α) :
    ∀ {l : List α}, l.Pairwise (fun a b => le a b = true) →
      (insertLE le x l).Pairwise (fun a b => le a b = true)
  | [], _ => by simp [insertLE]
  | y :: ys, h => by
    rw [List.pairwise_cons] at h
    unfold insertLE
    split
    case isTrue hyx =>
      rw [List.pairwise_cons]
      refine ⟨fun z hz => ?_, insertLE_pairwise hTot hTrans x h.2⟩
      have hz' : z ∈ x :: ys := (insertLE_perm le x ys).mem_iff.mp hz
      rcases List.mem_cons.mp hz' with rfl | hz2
      · exact hyx
      · exact h.1 z hz2
    case isFalse hyx =>
      rw [List.pairwise_cons]
      have hxy : le x y = true := hTot _ _ (Bool.not_eq_true _ ▸ hyx)
      refine ⟨fun z hz => ?_, List.pairwise_cons.mpr h⟩
      rcases List.mem_cons.mp hz with hz | hz
      · subst hz; exact hxy
      · exact hTrans _ _ _ hxy (h.1 z hz)

theorem foldl_insertLE_pairwise
    (hTot : ∀ a b, le a b = false → le b a = true)
    (hTrans : ∀ a b c, le a b = true → le b c = true → le a c = true) :
    ∀ (l acc : List α), acc.Pairwise (fun a b => le a b = true) →
      (l.foldl (fun acc x => insertLE le x acc) acc).Pairwise
        (fun a b => le a b = true)
  | [], _, h => h
  | x :: xs, acc, h =>
    foldl_insertLE_pairwise hTot hTrans xs (insertLE le x acc)
      (insertLE_pairwise le hTot hTrans x h)

theorem stableSort_pairwise
    (hTot : ∀ a b, le a b = false → le b a = true)
    (hTrans : ∀ a b c, le a b = true → le b c = true → le a c = true)
    (l : List α) :
    (stableSort le l).Pairwise (fun a b => le a b = true) :=
  foldl_insertLE_pairwise le hTot hTrans l [] (List.Pairwise.nil)

end SortLemmas

section JsGetLemmas

variable {κ β γ : Type} [BEq κ] [LawfulBEq κ]

theorem jsGet_isSome_iff (m : List (κ × β)) (k : κ) :
    (jsGet m k).isSome ↔ ∃ q ∈ m, q.1 = k := by
  simp [jsGet, List.find?_isSome]

theorem jsGet_eq_some_of_unique (m : List (κ × β)) (k : κ) (v : β)
    (hmem : (k, v) ∈ m) (huniq : ∀ q ∈ m, q.1 = k → q = (k, v)) :
    jsGet m k = some v := by
  unfold jsGet
  have hsome : (m.reverse.find? (fun q => q.1 == k)).isSome := by
    rw [List.find?_isSome]
    exact ⟨(k, v), List.mem_reverse.mpr hmem, by simp⟩
  rcases Option.isSome_iff_exists.mp hsome with ⟨q, hq⟩
  have hk : q.1 = k := by simpa using List.find?_some hq
  have hqm : q ∈ m := List.mem_reverse.mp (List.mem_of_find?_eq_some hq)
  rw [hq]
  rw [huniq q hqm hk]
  rfl

theorem jsGet_map_keyed (f : κ × β → κ × γ) (hf : ∀ q, (f q).1 = q.1)
    (m : List (κ × β)) (k : κ) :
    jsGet (m.map f) k = (m.reverse.find? (fun q => q.1 == k)).map
      (fun q => (f q).2) := by
  unfold jsGet
  rw [← List.map_reverse, List.find?_map]
  have : ((fun q : κ × γ => q.1 == k) ∘ f) = (fun q : κ × β => q.1 == k) := by
    funext q
    simp [hf]
  rw [this, Option.map_map]
  rfl

theorem jsGet_append_single_self (m : List (κ × β)) (k : κ) (v : β) :
    jsGet (m ++ [(k, v)]) k = some v := by
  simp [jsGet]

theorem jsGet_append_single_other (m : List (κ × β)) (k k' : κ) (v : β)
    (h : k' ≠ k) : jsGet (m ++ [(k, v)]) k' = jsGet m k' := by
  simp [jsGet, List.find?_cons, h, Ne.symm h]

end JsGetLemmas

/-! ## The best-of-4-rounds loop -/

theorem iterApp_one {α : Type} (f : α → α) (x : α) : iterApp f x 1 = f x := rfl

theorem iterApp_succ {α : Type} (f : α → α) (x : α) (n : ℕ) :
    iterApp f x (n + 1) = f (iterApp f x n) := rfl

/-- The loop `for (round = 0; round < 4; round++) { sweep; measure; keep
best }` returns the state after the earliest round attaining the minimum
measured cost among the four rounds. -/
theorem bestRounds_four {α : Type} (step : α → α) (cost : α → ℕ) (init : α) :
    ∃ k, 1 ≤ k ∧ k ≤ 4 ∧
      (bestRounds step cost 4 init (init, none)).1 = iterApp step init k ∧
      (∀ j, 1 ≤ j → j ≤ 4 →
        cost (iterApp step init k) ≤ cost (iterApp step init j)) ∧
      (∀ j, 1 ≤ j → j < k →
        cost (iterApp step init k) < cost (iterApp step init j)) := by
  set a1 := step init with ha1
  set a2 := step a1 with ha2
  set a3 := step a2 with ha3
  set a4 := step a3 with ha4
  have e1 : iterApp step init 1 = a1 := rfl
  have e2 : iterApp step init 2 = a2 := rfl
  have e3 : iterApp step init 3 = a3 := rfl
  have e4 : iterApp step init 4 = a4 := rfl
  have hrun : ∀ (b : α) (c : ℕ),
      bestRounds step cost 4 init (init, none) =
        bestRounds step cost 2 a2
          (if ltOpt (cost a2) (some (cost a1)) then (a2, some (cost a2))
           else (a1, some (cost a1))) := by
    intro _ _
    rfl
  rw [hrun init 0]
  by_cases h21 : cost a2 < cost a1
  · rw [if_pos (by simp [ltOpt, h21])]
    by_cases h32 : cost a3 < cost a2
    · rw [show bestRounds step cost 2 a2 (a2, some (cost a2)) =
          bestRounds step cost 1 a3
            (if ltOpt (cost a3) (some (cost a2)) then (a3, some (cost a3))
             else (a2, some (cost a2))) from rfl,
        if_pos (by simp [ltOpt, h32])]
      by_cases h43 : cost a4 < cost a3
      · rw [show bestRounds step cost 1 a3 (a3, some (cost a3)) =
            bestRounds step cost 0 a4
              (if ltOpt (cost a4) (some (cost a3)) then (a4, some (cost a4))
               else (a3, some (cost a3))) from rfl,
          if_pos (by simp [ltOpt, h43])]
        refine ⟨4, by omega, by omega, rfl, ?_, ?_⟩
        · intro j h1 h4
          interval_cases j <;> simp [e1, e2, e3, e4] <;> omega
        · intro j h1 h4
          interval_cases j <;> simp [e1, e2, e3, e4] <;> omega
      · rw [show bestRounds step cost 1 a3 (a3, some (cost a3)) =
            bestRounds step cost 0 a4
              (if ltOpt (cost a4) (some (cost a3)) then (a4, some (cost a4))
               else (a3, some (cost a3))) from rfl,
          if_neg (by simp [ltOpt, h43])]
        refine ⟨3, by omega, by omega, rfl, ?_, ?_⟩
        · intro j h1 h4
          interval_cases j <;> simp [e1, e2, e3, e4] <;> omega
        · intro j h1 h4
          interval_cases j <;> simp [e1, e2, e3, e4] <;> omega
    · rw [show bestRounds step cost 2 a2 (a2, some (cost a2)) =
          bestRounds step cost 1 a3
            (if ltOpt (cost a3) (some (cost a2)) then (a3, some (cost a3))
             else (a2, some (cost a2))) from rfl,
        if_neg (by simp [ltOpt, h32])]
      by_cases h42 : cost a4 < cost a2
      · rw [show bestRounds step cost 1 a3 (a2, some (cost a2)) =
            bestRounds step cost 0 a4
              (if ltOpt (cost a4) (some (cost a2)) then (a4, some (cost a4))
               else (a2, some (cost a2))) from rfl,
          if_pos (by simp [ltOpt, h42])]
        refine ⟨4, by omega, by omega, rfl, ?_, ?_⟩
        · intro j h1 h4
          interval_cases j <;> simp [e1, e2, e3, e4] <;> omega
        · intro j h1 h4
          interval_cases j <;> simp [e1, e2, e3, e4] <;> omega
      · rw [show bestRounds step cost 1 a3 (a2, some (cost a2)) =
            bestRounds step cost 0 a4
              (if ltOpt (cost a4) (some (cost a2)) then (a4, some (cost a4))
               else (a2, some (cost a2))) from rfl,
          if_neg (by simp [ltOpt, h42])]
        refine ⟨2, by omega, by omega, rfl, ?_, ?_⟩
        · intro j h1 h4
          interval_cases j <;> simp [e1, e2, e3, e4] <;> omega
        · intro j h1 h4
          interval_cases j <;> simp [e1, e2, e3, e4] <;> omega
  · rw [if_neg (by simp [ltOpt, h21])]
    by_cases h31 : cost a3 < cost a1
    · rw [show bestRounds step cost 2 a2 (a1, some (cost a1)) =
          bestRounds step cost 1 a3
            (if ltOpt (cost a3) (some (cost a1)) then (a3, some (cost a3))
             else (a1, some (cost a1))) from rfl,
        if_pos (by simp [ltOpt, h31])]
      by_cases h43 : cost a4 < cost a3
      · rw [show bestRounds step cost 1 a3 (a3, some (cost a3)) =
            bestRounds step cost 0 a4
              (if ltOpt (cost a4) (some (cost a3)) then (a4, some (cost a4))
               else (a3, some (cost a3))) from rfl,
          if_pos (by simp [ltOpt, h43])]
        refine ⟨4, by omega, by omega, rfl, ?_, ?_⟩
        · intro j h1 h4
          interval_cases j <;> simp [e1, e2, e3, e4] <;> omega
        · intro j h1 h4
          interval_cases j <;> simp [e1, e2, e3, e4] <;> omega
      · rw [show bestRounds step cost 1 a3 (a3, some (cost a3)) =
            bestRounds step cost 0 a4
              (if ltOpt (cost a4) (some (cost a3)) then (a4, some (cost a4))
               else (a3, some (cost a3))) from rfl,
          if_neg (by simp [ltOpt, h43])]
        refine ⟨3, by omega, by omega, rfl, ?_, ?_⟩
        · intro j h1 h4
          interval_cases j <;> simp [e1, e2, e3, e4] <;> omega
        · intro j h1 h4
          interval_cases j <;> simp [e1, e2, e3, e4] <;> omega
    · rw [show bestRounds step cost 2 a2 (a1, some (cost a1)) =
          bestRounds step cost 1 a3
            (if ltOpt (cost a3) (some (cost a1)) then (a3, some (cost a3))
             else (a1, some (cost a1))) from rfl,
        if_neg (by simp [ltOpt, h31])]
      by_cases h41 : cost a4 < cost a1
      · rw [show bestRounds step cost 1 a3 (a1, some (cost a1)) =
            bestRounds step cost 0 a4
              (if ltOpt (cost a4) (some (cost a1)) then (a4, some (cost a4))
               else (a1, some (cost a1))) from rfl,
          if_pos (by simp [ltOpt, h41])]
        refine ⟨4, by omega, by omega, rfl, ?_, ?_⟩
        · intro j h1 h4
          interval_cases j <;> simp [e1, e2, e3, e4] <;> omega
        · intro j h1 h4
          interval_cases j <;> simp [e1, e2, e3, e4] <;> omega
      · rw [show bestRounds step cost 1 a3 (a1, some (cost a1)) =
            bestRounds step cost 0 a4
              (if ltOpt (cost a4) (some (cost a1)) then (a4, some (cost a4))
               else (a1, some (cost a1))) from rfl,
          if_neg (by simp [ltOpt, h41])]
        refine ⟨1, by omega, by omega, rfl, ?_, ?_⟩
        · intro j h1 h4
          interval_cases j <;> simp [e1, e2, e3, e4] <;> omega
        · intro j h1 h4
          interval_cases j <;> simp [e1, e2, e3, e4] <;> omega

/-! ## Permutation facts about the sweep machinery -/

theorem forall₂_perm_trans {α : Type} :
    ∀ {l1 l2 l3 : List (List α)},
      List.Forall₂ (fun a b => List.Perm a b) l1 l2 →
      List.Forall₂ (fun a b => List.Perm a b) l2 l3 →
      List.Forall₂ (fun a b => List.Perm a b) l1 l3 := by
  intro l1 l2 l3 h12 h23
  induction h12 generalizing l3 with
  | nil => cases h23; exact .nil
  | cons h _ ih =>
    cases h23 with
    | cons h' hs' => exact .cons (h.trans h') (ih hs')

theorem forall₂_reverse_of_forall₂ {α β : Type} {R : α → β → Prop}
    {l1 : List α} {l2 : List β} (h : List.Forall₂ R l1 l2) :
    List.Forall₂ R l1.reverse l2.reverse :=
  List.forall₂_reverse_iff.mpr h

namespace Authoring

theorem bcSort_perm (layer : List Node) (adj : String → List String)
    (fp : String → Option ℕ) : List.Perm (bcSort layer adj fp) layer := by
  unfold bcSort
  have h1 := foldl_insertLE_perm (fun a b : Node × ℚ => decide (a.2 ≤ b.2))
    (layer.map (fun n => (n, bcKey adj fp n))) []
  have h2 := h1.map Prod.fst
  simpa [List.map_map, Function.comp_def] using h2

theorem fwdAux_forall₂ (adj : String → List String) :
    ∀ (prev : List Node) (ls : List (List Node)),
      List.Forall₂ (fun a b => List.Perm a b) (fwdAux adj prev ls) ls
  | _, [] => List.Forall₂.nil
  | prev, l :: rest =>
    List.Forall₂.cons (bcSort_perm l adj (fpOf prev))
      (fwdAux_forall₂ adj (bcSort l adj (fpOf prev)) rest)

theorem forwardSweep_forall₂ (adj : String → List String) :
    ∀ ls : List (List Node),
      List.Forall₂ (fun a b => List.Perm a b) (forwardSweep adj ls) ls
  | [] => List.Forall₂.nil
  | l0 :: rest => List.Forall₂.cons (List.Perm.refl l0) (fwdAux_forall₂ adj l0 rest)

theorem backwardSweep_forall₂ (adj : String → List String)
    (ls : List (List Node)) :
    List.Forall₂ (fun a b => List.Perm a b) (backwardSweep adj ls) ls := by
  have h := forall₂_reverse_of_forall₂ (forwardSweep_forall₂ adj ls.reverse)
  simpa [backwardSweep] using h

theorem roundStep_forall₂ (nodes : List Node) (edges : List Edge)
    (ls : List (List Node)) :
    List.Forall₂ (fun a b => List.Perm a b) (roundStep nodes edges ls) ls :=
  forall₂_perm_trans
    (backwardSweep_forall₂ (buildAdj nodes edges)
      (forwardSweep (buildAdj nodes edges) ls))
    (forwardSweep_forall₂ (buildAdj nodes edges) ls)

theorem iterApp_roundStep_forall₂ (nodes : List Node) (edges : List Edge)
    (init : List (List Node)) :
    ∀ k : ℕ, List.Forall₂ (fun a b => List.Perm a b)
      (iterApp (roundStep nodes edges) init k) init
  | 0 => List.forall₂_same.mpr (fun x _ => List.Perm.refl x)
  | k + 1 =>
    forall₂_perm_trans
      (roundStep_forall₂ nodes edges (iterApp (roundStep nodes edges) init k))
      (iterApp_roundStep_forall₂ nodes edges init k)

theorem bestLayers_forall₂ (nodes : List Node) (edges : List Edge) :
    List.Forall₂ (fun a b => List.Perm a b) (bestLayers nodes edges)
      (initLayers nodes) := by
  obtain ⟨k, -, -, hk, -, -⟩ :=
    bestRounds_four (roundStep nodes edges) (totalCrossings edges)
      (initLayers nodes)
  rw [bestLayers, hk]
  exact iterApp_roundStep_forall₂ nodes edges (initLayers nodes) k

theorem assignLayer_lt_six (kind : String) : assignLayer kind < 6 := by
  have hlen : LAYER_ORDER.length = 6 := rfl
  unfold assignLayer
  dsimp only
  split
  next h => exact hlen ▸ h
  next => omega

theorem layerIdxsOf_nodup (nodes : List Node) : (layerIdxsOf nodes).Nodup :=
  (List.nodup_range 6).filter _

end Authoring

namespace Authoring

theorem place_mem_iff (layerIdxs : List ℕ) (ls : List (List Node))
    (q : String × Pos) :
    q ∈ place layerIdxs ls ↔ ∃ (li : ℕ) (l : List Node) (i : ℕ) (n : Node),
      (li, l) ∈ layerIdxs.zip ls ∧ l[i]? = some n ∧
      q = (n.id, ⟨MARGIN + (li : ℚ) * LAYER_X_GAP,
        MARGIN + (i : ℚ) * ((nodeDims n.kind).2 + NODE_Y_GAP), li⟩) := by
  unfold place
  rw [List.mem_flatMap]
  constructor
  · rintro ⟨p, hp, hq⟩
    rw [List.mem_map] at hq
    obtain ⟨en, hen, hq⟩ := hq
    obtain ⟨k, hk⟩ := List.get?_of_mem hen
    rw [List.get?_eq_getElem?, List.getElem?_enum] at hk
    cases hx : p.2[k]? with
    | none => rw [hx] at hk; simp at hk
    | some x =>
      rw [hx] at hk
      simp only [Option.map_some'] at hk
      obtain rfl := Option.some.inj hk
      exact ⟨p.1, p.2, k, x, by simpa using hp, hx, hq.symm⟩
  · rintro ⟨li, l, i, n, hzip, hget, hq⟩
    refine ⟨(li, l), hzip, ?_⟩
    rw [List.mem_map]
    refine ⟨(i, n), ?_, hq.symm⟩
    have hi : l.enum[i]? = some (i, n) := by
      rw [List.getElem?_enum, hget]; rfl
    exact List.get?_mem (by rw [List.get?_eq_getElem?]; exact hi)

theorem zip_best_spec (nodes : List Node) (edges : List Edge)
    {li : ℕ} {l : List Node}
    (h : (li, l) ∈ (layerIdxsOf nodes).zip (bestLayers nodes edges)) :
    List.Perm l (nodes.filter (fun n => assignLayer n.kind == li)) := by
  obtain ⟨k, hk⟩ := List.get?_of_mem h
  rw [List.get?_eq_getElem?, List.getElem?_zip_eq_some] at hk
  obtain ⟨hk1, hk2⟩ := hk
  have hf := bestLayers_forall₂ nodes edges
  rw [List.forall₂_iff_get] at hf
  obtain ⟨hlen, hrel⟩ := hf
  obtain ⟨hkb, hbl⟩ := List.getElem?_eq_some.mp hk2
  have hki : k < (initLayers nodes).length := by omega
  have hrelk := hrel k hkb hki
  have hinit : (initLayers nodes).get ⟨k, hki⟩ =
      nodes.filter (fun n => assignLayer n.kind == li) := by
    have : (initLayers nodes)[k]? = some
        (nodes.filter (fun n => assignLayer n.kind == li)) := by
      rw [initLayers, List.getElem?_map, (List.getElem?_eq_some.mpr
        ⟨(List.getElem?_eq_some.mp hk1).1, (List.getElem?_eq_some.mp hk1).2⟩ :
          (layerIdxsOf nodes)[k]? = some li)]
      rfl
    have h2 := List.getElem?_eq_getElem hki
    rw [this] at h2
    exact (List.get_eq_getElem _ _).trans (Option.some.inj h2.symm)
  rw [hinit] at hrelk
  have hbest : (bestLayers nodes edges).get ⟨k, hkb⟩ = l := by
    rw [List.get_eq_getElem, hbl]
  rw [hbest] at hrelk
  exact hrelk

theorem exists_zip_entry (nodes : List Node) (edges : List Edge) :
    ∀ n ∈ nodes, ∃ (l : List Node) (i : ℕ),
      (assignLayer n.kind, l) ∈
        (layerIdxsOf nodes).zip (bestLayers nodes edges) ∧
      l[i]? = some n := by
  intro n hn
  have hli : assignLayer n.kind ∈ layerIdxsOf nodes := by
    rw [layerIdxsOf, List.mem_filter]
    exact ⟨List.mem_range.mpr (assignLayer_lt_six n.kind),
      List.any_eq_true.mpr ⟨n, hn, by simp⟩⟩
  obtain ⟨k, hk⟩ := List.get?_of_mem hli
  rw [List.get?_eq_getElem?] at hk
  have hklen : k < (layerIdxsOf nodes).length := (List.getElem?_eq_some.mp hk).1
  have hlen2 : (bestLayers nodes edges).length = (layerIdxsOf nodes).length := by
    have h := (bestLayers_forall₂ nodes edges).length_eq
    rwa [initLayers, List.length_map] at h
  have hkb : k < (bestLayers nodes edges).length := by omega
  refine ⟨(bestLayers nodes edges)[k], ?_⟩
  have hbk : (bestLayers nodes edges)[k]? = some ((bestLayers nodes edges)[k]) :=
    List.getElem?_eq_getElem hkb
  have hzip : (assignLayer n.kind, (bestLayers nodes edges)[k]) ∈
      (layerIdxsOf nodes).zip (bestLayers nodes edges) := by
    apply List.get?_mem (n := k)
    rw [List.get?_eq_getElem?, List.getElem?_zip_eq_some]
    exact ⟨hk, hbk⟩
  have hperm := zip_best_spec nodes edges hzip
  have hmem : n ∈ (bestLayers nodes edges)[k] :=
    hperm.mem_iff.mpr (List.mem_filter.mpr ⟨hn, by simp⟩)
  obtain ⟨i, hi⟩ := List.get?_of_mem hmem
  exact ⟨i, hzip, by rw [← List.get?_eq_getElem?]; exact hi⟩

theorem layout_get_of_nodup (nodes : List Node) (edges : List Edge)
    (hnd : (nodes.map Node.id).Nodup)
    {li : ℕ} {l : List Node} {i : ℕ} {n : Node}
    (hzip : (li, l) ∈ (layerIdxsOf nodes).zip (bestLayers nodes edges))
    (hget : l[i]? = some n) :
    jsGet (layout nodes edges) n.id =
      some ⟨MARGIN + (li : ℚ) * LAYER_X_GAP,
        MARGIN + (i : ℚ) * ((nodeDims n.kind).2 + NODE_Y_GAP), li⟩ := by
  have hperm := zip_best_spec nodes edges hzip
  have hnl : n ∈ l := List.get?_mem (by rw [List.get?_eq_getElem?]; exact hget)
  have hnfil := hperm.mem_iff.mp hnl
  rw [List.mem_filter] at hnfil
  have hnn : n ∈ nodes := hnfil.1
  have hnli : assignLayer n.kind = li := by simpa using hnfil.2
  have hnodesnd : nodes.Nodup := hnd.of_map Node.id
  have hlnd : l.Nodup := hperm.symm.nodup (hnodesnd.filter _)
  apply jsGet_eq_some_of_unique
  · rw [layout]
    rw [place_mem_iff]
    exact ⟨li, l, i, n, hzip, hget, rfl⟩
  · rintro q hq hq1
    rw [layout, place_mem_iff] at hq
    obtain ⟨li', l', i', n', hzip', hget', rfl⟩ := hq
    have hperm' := zip_best_spec nodes edges hzip'
    have hnl' : n' ∈ l' :=
      List.get?_mem (by rw [List.get?_eq_getElem?]; exact hget')
    have hnfil' := hperm'.mem_iff.mp hnl'
    rw [List.mem_filter] at hnfil'
    have hnn' : n' ∈ nodes := hnfil'.1
    have hnli' : assignLayer n'.kind = li' := by simpa using hnfil'.2
    have hne : n' = n := List.inj_on_of_nodup_map hnd hnn' hnn hq1
    subst hne
    have hlieq : li' = li := by rw [← hnli', hnli]
    subst hlieq
    obtain ⟨k, hk⟩ := List.get?_of_mem hzip
    obtain ⟨k', hk'⟩ := List.get?_of_mem hzip'
    rw [List.get?_eq_getElem?, List.getElem?_zip_eq_some] at hk hk'
    have hkk : k = k' := by
      apply List.getElem?_inj (List.getElem?_eq_some.mp hk.1).1
        (layerIdxsOf_nodup nodes)
      rw [hk.1, hk'.1]
    subst hkk
    have hll : l' = l := by
      have := hk.2
      rw [hk'.2] at this
      exact Option.some.inj this
    subst hll
    have hii : i = i' := by
      apply List.getElem?_inj (List.getElem?_eq_some.mp hget).1 hlnd
      rw [hget, hget']
    subst hii
    rfl

end Authoring

/-! ## The two implementations compute the same orderings -/

theorem renderer_fpOf_eq : Renderer.fpOf = Authoring.fpOf := rfl

theorem renderer_barycenterSort_eq : Renderer.barycenterSort = Authoring.bcSort := rfl

theorem renderer_fwdAux_eq (adj : String → List String) :
    ∀ (prev : List Node) (ls : List (List Node)),
      Renderer.fwdAux adj prev ls = Authoring.fwdAux adj prev ls
  | _, [] => rfl
  | prev, l :: rest => by
    show Renderer.barycenterSort l adj (Renderer.fpOf prev) ::
        Renderer.fwdAux adj (Renderer.barycenterSort l adj (Renderer.fpOf prev)) rest =
      Authoring.bcSort l adj (Authoring.fpOf prev) ::
        Authoring.fwdAux adj (Authoring.bcSort l adj (Authoring.fpOf prev)) rest
    rw [renderer_fwdAux_eq adj]
    rfl

theorem renderer_forwardSweep_eq (adj : String → List String) :
    ∀ ls : List (List Node),
      Renderer.forwardSweep adj ls = Authoring.forwardSweep adj ls
  | [] => rfl
  | l0 :: rest => by
    show l0 :: Renderer.fwdAux adj l0 rest = l0 :: Authoring.fwdAux adj l0 rest
    rw [renderer_fwdAux_eq adj]

theorem renderer_backwardSweep_eq (adj : String → List String)
    (ls : List (List Node)) :
    Renderer.backwardSweep adj ls = Authoring.backwardSweep adj ls := by
  unfold Renderer.backwardSweep Authoring.backwardSweep
  rw [renderer_forwardSweep_eq adj]

theorem renderer_roundStep_eq (nodes : List Node) (edges : List Edge) :
    Renderer.roundStep nodes edges = Authoring.roundStep nodes edges := by
  funext ls
  unfold Renderer.roundStep Authoring.roundStep
  rw [renderer_forwardSweep_eq, renderer_backwardSweep_eq]
  rfl

theorem renderer_bestLayers_eq (nodes : List Node) (edges : List Edge) :
    Renderer.bestLayers nodes edges = Authoring.bestLayers nodes edges := by
  unfold Renderer.bestLayers Authoring.bestLayers
  rw [renderer_roundStep_eq]
  rfl

/-- Lookup commutes with a value-only transformation of the map. -/
theorem jsGet_proj {β γ : Type} (g : β → γ) (m : List (String × β))
    (k : String) :
    jsGet (m.map (fun q => (q.1, g q.2))) k = (jsGet m k).map g := by
  rw [jsGet_map_keyed (fun q => (q.1, g q.2)) (fun q => rfl)]
  unfold jsGet
  rw [Option.map_map]
  rfl

theorem nodeDims_h_pos (kind : String) : 0 < (Authoring.nodeDims kind).2 := by
  unfold Authoring.nodeDims
  split_ifs <;> norm_num

theorem nodeDims_w_pos (kind : String) : 0 < (Authoring.nodeDims kind).1 := by
  unfold Authoring.nodeDims
  split_ifs <;> norm_num

/-! ## Claims -/

/-- C1: the crossing-minimisation engine runs exactly 4
forward-plus-backward rounds, measures the total crossing count once after
each round, and returns the ordering of the earliest round attaining the
minimum of the four observed counts (a strictly smaller count is required
to displace the stored best, so ties keep the earlier round). -/
theorem claim1_crossing_rounds_best (nodes : List Node) (edges : List Edge) :
    ∃ k, 1 ≤ k ∧ k ≤ 4 ∧
      Authoring.bestLayers nodes edges =
        iterApp (Authoring.roundStep nodes edges) (Authoring.initLayers nodes) k ∧
      (∀ j, 1 ≤ j → j ≤ 4 →
        Authoring.totalCrossings edges
            (iterApp (Authoring.roundStep nodes edges) (Authoring.initLayers nodes) k) ≤
          Authoring.totalCrossings edges
            (iterApp (Authoring.roundStep nodes edges) (Authoring.initLayers nodes) j)) ∧
      (∀ j, 1 ≤ j → j < k →
        Authoring.totalCrossings edges
            (iterApp (Authoring.roundStep nodes edges) (Authoring.initLayers nodes) k) <
          Authoring.totalCrossings edges
            (iterApp (Authoring.roundStep nodes edges) (Authoring.initLayers nodes) j)) :=
  bestRounds_four (Authoring.roundStep nodes edges)
    (Authoring.totalCrossings edges) (Authoring.initLayers nodes)

/-- Witness for C1 at a concrete two-node, one-edge graph. -/
theorem claim1_witness :
    ∃ k, 1 ≤ k ∧ k ≤ 4 ∧
      Authoring.bestLayers [⟨"a", "actor"⟩, ⟨"g", "gateway"⟩] [⟨"e", "a", "g"⟩] =
        iterApp (Authoring.roundStep [⟨"a", "actor"⟩, ⟨"g", "gateway"⟩] [⟨"e", "a", "g"⟩])
          (Authoring.initLayers [⟨"a", "actor"⟩, ⟨"g", "gateway"⟩]) k ∧
      (∀ j, 1 ≤ j → j ≤ 4 →
        Authoring.totalCrossings [⟨"e", "a", "g"⟩]
            (iterApp (Authoring.roundStep [⟨"a", "actor"⟩, ⟨"g", "gateway"⟩] [⟨"e", "a", "g"⟩])
              (Authoring.initLayers [⟨"a", "actor"⟩, ⟨"g", "gateway"⟩]) k) ≤
          Authoring.totalCrossings [⟨"e", "a", "g"⟩]
            (iterApp (Authoring.roundStep [⟨"a", "actor"⟩, ⟨"g", "gateway"⟩] [⟨"e", "a", "g"⟩])
              (Authoring.initLayers [⟨"a", "actor"⟩, ⟨"g", "gateway"⟩]) j)) ∧
      (∀ j, 1 ≤ j → j < k →
        Authoring.totalCrossings [⟨"e", "a", "g"⟩]
            (iterApp (Authoring.roundStep [⟨"a", "actor"⟩, ⟨"g", "gateway"⟩] [⟨"e", "a", "g"⟩])
              (Authoring.initLayers [⟨"a", "actor"⟩, ⟨"g", "gateway"⟩]) k) <
          Authoring.totalCrossings [⟨"e", "a", "g"⟩]
            (iterApp (Authoring.roundStep [⟨"a", "actor"⟩, ⟨"g", "gateway"⟩] [⟨"e", "a", "g"⟩])
              (Authoring.initLayers [⟨"a", "actor"⟩, ⟨"g", "gateway"⟩]) j)) :=
  claim1_crossing_rounds_best [⟨"a", "actor"⟩, ⟨"g", "gateway"⟩] [⟨"e", "a", "g"⟩]

/-- C9: every node's layer index in the layout output is exactly
`assignLayer` of its kind (crossing minimisation only reorders within a
layer); `assignLayer` is total, mapping a listed category to its table row
index and every unlisted category to 2. -/
theorem claim9_layer_assignment (nodes : List Node) (edges : List Edge)
    (hnd : (nodes.map Node.id).Nodup) :
    (∀ n ∈ nodes, ∃ p : Authoring.Pos,
        jsGet (Authoring.layout nodes edges) n.id = some p ∧
        p.layer = Authoring.assignLayer n.kind) ∧
    (∀ kind : String,
        (∀ row ∈ Authoring.LAYER_ORDER, kind ∉ row) →
        Authoring.assignLayer kind = 2) ∧
    (∀ (i : ℕ) (row : List String), Authoring.LAYER_ORDER[i]? = some row →
        ∀ kind ∈ row, Authoring.assignLayer kind = i) := by
  refine ⟨?_, ?_, ?_⟩
  · intro n hn
    obtain ⟨l, i, hzip, hget⟩ := Authoring.exists_zip_entry nodes edges n hn
    exact ⟨_, Authoring.layout_get_of_nodup nodes edges hnd hzip hget, rfl⟩
  · intro kind hrow
    unfold Authoring.assignLayer
    have hidx : Authoring.LAYER_ORDER.findIdx (fun row => kind ∈ row) =
        Authoring.LAYER_ORDER.length := by
      rw [List.findIdx_eq_length]
      intro row hr
      simpa using hrow row hr
    rw [hidx]
    simp
  · intro i row hrow kind hkind
    have hi : i < 6 := by
      have := (List.getElem?_eq_some.mp hrow).1
      simpa [Authoring.LAYER_ORDER] using this
    interval_cases i <;>
      (first
        | (have hr : row = ["actor", "frontend", "mobile-app", "cli"] := by
            simpa [Authoring.LAYER_ORDER] using hrow.symm
           subst hr
           fin_cases hkind <;> decide)
        | (have hr : row = ["cdn", "load-balancer", "gateway"] := by
            simpa [Authoring.LAYER_ORDER] using hrow.symm
           subst hr
           fin_cases hkind <;> decide)
        | (have hr : row = ["identity-provider", "microservice", "monolith",
              "serverless-function", "scheduler", "data-pipeline", "ml-model"] := by
            simpa [Authoring.LAYER_ORDER] using hrow.symm
           subst hr
           fin_cases hkind <;> decide)
        | (have hr : row = ["message-broker", "message-queue"] := by
            simpa [Authoring.LAYER_ORDER] using hrow.symm
           subst hr
           fin_cases hkind <;> decide)
        | (have hr : row = ["database", "cache", "object-storage"] := by
            simpa [Authoring.LAYER_ORDER] using hrow.symm
           subst hr
           fin_cases hkind <;> decide)
        | (have hr : row = ["external-api"] := by
            simpa [Authoring.LAYER_ORDER] using hrow.symm
           subst hr
           fin_cases hkind <;> decide))

/-- Witness for C9 at a concrete three-node graph. -/
theorem claim9_witness :
    (∀ n ∈ ([⟨"a", "actor"⟩, ⟨"d", "database"⟩, ⟨"x", "mystery-kind"⟩] : List Node),
      ∃ p : Authoring.Pos,
        jsGet (Authoring.layout [⟨"a", "actor"⟩, ⟨"d", "database"⟩, ⟨"x", "mystery-kind"⟩]
          [⟨"e", "a", "d"⟩]) n.id = some p ∧
        p.layer = Authoring.assignLayer n.kind) ∧
    (∀ kind : String,
        (∀ row ∈ Authoring.LAYER_ORDER, kind ∉ row) →
        Authoring.assignLayer kind = 2) ∧
    (∀ (i : ℕ) (row : List String), Authoring.LAYER_ORDER[i]? = some row →
        ∀ kind ∈ row, Authoring.assignLayer kind = i) :=
  claim9_layer_assignment [⟨"a", "actor"⟩, ⟨"d", "database"⟩, ⟨"x", "mystery-kind"⟩]
    [⟨"e", "a", "d"⟩] (by decide)

/-- C2 (amended): in the laid-out graph, the node at index `i` of the
layer with layer index `li` gets `x = margin + li·layer-spacing` and
`y = margin + i·(its own height + vertical gap)` — the index multiplies
the *current* node's height, not the cumulative heights of the preceding
nodes. -/
theorem claim2_amended_coordinates (nodes : List Node) (edges : List Edge)
    (hnd : (nodes.map Node.id).Nodup)
    {li : ℕ} {l : List Node} {i : ℕ} {n : Node}
    (hzip : (li, l) ∈ (Authoring.layerIdxsOf nodes).zip
      (Authoring.bestLayers nodes edges))
    (hget : l[i]? = some n) :
    jsGet (Authoring.layout nodes edges) n.id =
      some ⟨Authoring.MARGIN + (li : ℚ) * Authoring.LAYER_X_GAP,
        Authoring.MARGIN +
          (i : ℚ) * ((Authoring.nodeDims n.kind).2 + Authoring.NODE_Y_GAP),
        li⟩ :=
  Authoring.layout_get_of_nodup nodes edges hnd hzip hget

/-- Counterexample to C2 as stated: in the layer `[actor "a",
frontend "b"]` the second node "b" is placed at `y = 204 =
52 + 1·(62 + 90)` using its own height 62, whereas the claimed cumulative
sum over preceding nodes (the actor, height 76) would give
`52 + (76 + 90) = 218`. -/
theorem claim2_counterexample :
    Authoring.bestLayers [⟨"a", "actor"⟩, ⟨"b", "frontend"⟩] [] =
      [[⟨"a", "actor"⟩, ⟨"b", "frontend"⟩]] ∧
    jsGet (Authoring.layout [⟨"a", "actor"⟩, ⟨"b", "frontend"⟩] []) "b" =
      some ⟨52, 204, 0⟩ ∧
    Authoring.MARGIN +
        ((Authoring.nodeDims "actor").2 + Authoring.NODE_Y_GAP) ≠ (204 : ℚ) := by
  refine ⟨by decide, ?_, ?_⟩
  · have h := @Authoring.layout_get_of_nodup
      [⟨"a", "actor"⟩, ⟨"b", "frontend"⟩] [] (by decide)
      0 [⟨"a", "actor"⟩, ⟨"b", "frontend"⟩] 1 ⟨"b", "frontend"⟩
      (by decide) (by decide)
    rw [h]
    simp [Authoring.MARGIN, Authoring.LAYER_X_GAP, Authoring.NODE_Y_GAP,
      Authoring.nodeDims, Authoring.Pos.mk.injEq]
    try norm_num
  · simp [Authoring.MARGIN, Authoring.NODE_Y_GAP, Authoring.nodeDims]
    try norm_num

/-- Witness for the amended C2 at a concrete mixed-height layer. -/
theorem claim2_witness :
    jsGet (Authoring.layout [⟨"a", "actor"⟩, ⟨"b", "frontend"⟩] []) "b" =
      some ⟨Authoring.MARGIN + (0 : ℚ) * Authoring.LAYER_X_GAP,
        Authoring.MARGIN +
          (1 : ℚ) * ((Authoring.nodeDims (Node.mk "b" "frontend").kind).2 +
            Authoring.NODE_Y_GAP),
        0⟩ :=
  @claim2_amended_coordinates [⟨"a", "actor"⟩, ⟨"b", "frontend"⟩] []
    (by decide) 0 [⟨"a", "actor"⟩, ⟨"b", "frontend"⟩] 1 ⟨"b", "frontend"⟩
    (by decide) (by decide)

theorem fpOf_eq_none (fixed : List Node) (id : String)
    (h : ∀ m ∈ fixed, m.id ≠ id) : Authoring.fpOf fixed id = none := by
  unfold Authoring.fpOf
  rw [Option.map_eq_none', List.find?_eq_none]
  intro p hp
  have h2 : p ∈ fixed.enum := List.mem_reverse.mp hp
  have h3 := List.mem_enum_iff_getElem?.mp h2
  have hmem : p.2 ∈ fixed :=
    List.get?_mem (by rw [List.get?_eq_getElem?]; exact h3)
  simpa using h p.2 hmem

/-- C3 (amended): in a barycenter sweep over a layer disjoint (by id) from
the fixed adjacent layer, a node with no neighbour in the fixed layer
always receives the sentinel key 999 — the `fp[n.id]` fallback never fires
because the node is not in the fixed layer; a node with such neighbours
receives the mean of their fixed-layer positions; the layer is sorted
stably by key (the result is a permutation with ascending keys). -/
theorem claim3_amended_barycenter_keys (fixed : List Node)
    (adj : String → List String) (layer : List Node)
    (hdisj : ∀ n ∈ layer, ∀ m ∈ fixed, m.id ≠ n.id) :
    (∀ n ∈ layer,
      (adj n.id).filter (fun j => (Authoring.fpOf fixed j).isSome) = [] →
      Authoring.bcKey adj (Authoring.fpOf fixed) n = 999) ∧
    (∀ n ∈ layer, ∀ nb : List String,
      nb = (adj n.id).filter (fun j => (Authoring.fpOf fixed j).isSome) →
      nb ≠ [] →
      Authoring.bcKey adj (Authoring.fpOf fixed) n =
        (nb.map (fun j => (((Authoring.fpOf fixed j).getD 0 : ℕ) : ℚ))).sum /
          (nb.length : ℚ)) ∧
    List.Perm (Authoring.bcSort layer adj (Authoring.fpOf fixed)) layer ∧
    ((Authoring.bcSort layer adj (Authoring.fpOf fixed)).map
        (Authoring.bcKey adj (Authoring.fpOf fixed))).Pairwise (· ≤ ·) := by
  refine ⟨?_, ?_, Authoring.bcSort_perm layer adj (Authoring.fpOf fixed), ?_⟩
  · intro n hn hnb
    have hfp := fpOf_eq_none fixed n.id (fun m hm => hdisj n hn m hm)
    simp [Authoring.bcKey, hnb, hfp]
  · intro n hn nb hnb hne
    simp only [Authoring.bcKey, ← hnb]
    rw [if_neg (by simpa [List.isEmpty_iff] using hne)]
  · have htot : ∀ a b : Node × ℚ, decide (a.2 ≤ b.2) = false →
        decide (b.2 ≤ a.2) = true := by
      intro a b h
      simp only [decide_eq_false_iff_not, not_le] at h
      simpa using le_of_lt h
    have htrans : ∀ a b c : Node × ℚ, decide (a.2 ≤ b.2) = true →
        decide (b.2 ≤ c.2) = true → decide (a.2 ≤ c.2) = true := by
      intro a b c h1 h2
      simp only [decide_eq_true_eq] at h1 h2 ⊢
      exact h1.trans h2
    have hp := stableSort_pairwise (fun a b : Node × ℚ => decide (a.2 ≤ b.2))
      htot htrans
      (layer.map (fun n => (n, Authoring.bcKey adj (Authoring.fpOf fixed) n)))
    have hmemshape : ∀ x ∈ stableSort (fun a b : Node × ℚ => decide (a.2 ≤ b.2))
        (layer.map (fun n => (n, Authoring.bcKey adj (Authoring.fpOf fixed) n))),
        Authoring.bcKey adj (Authoring.fpOf fixed) x.1 = x.2 := by
      intro x hx
      have hx2 := (stableSort_perm _ _).mem_iff.mp hx
      rw [List.mem_map] at hx2
      obtain ⟨n, -, rfl⟩ := hx2
      rfl
    have heq : (Authoring.bcSort layer adj (Authoring.fpOf fixed)).map
        (Authoring.bcKey adj (Authoring.fpOf fixed)) =
        (stableSort (fun a b : Node × ℚ => decide (a.2 ≤ b.2))
          (layer.map (fun n => (n, Authoring.bcKey adj (Authoring.fpOf fixed) n)))).map
          Prod.snd := by
      unfold Authoring.bcSort
      rw [List.map_map]
      exact List.map_congr_left (fun x hx => hmemshape x hx)
    rw [heq]
    exact hp.map Prod.snd (fun a b h => by simpa using h)

/-- Counterexample to C3 as stated: node "b" (layer `[b, c]`, previous
position 0) has no neighbour in the fixed layer `[a0, a1]`, yet its sort
key is the sentinel 999, not its previous position 0 — and the sweep
therefore orders "c" (key 1) before "b". -/
theorem claim3_counterexample :
    (Authoring.buildAdj
        [⟨"a0", "actor"⟩, ⟨"a1", "frontend"⟩, ⟨"b", "gateway"⟩, ⟨"c", "gateway"⟩]
        [⟨"e1", "c", "a1"⟩] "b").filter
      (fun j => (Authoring.fpOf [⟨"a0", "actor"⟩, ⟨"a1", "frontend"⟩] j).isSome) = [] ∧
    Authoring.fpOf [⟨"b", "gateway"⟩, ⟨"c", "gateway"⟩] "b" = some 0 ∧
    Authoring.bcKey
      (Authoring.buildAdj
        [⟨"a0", "actor"⟩, ⟨"a1", "frontend"⟩, ⟨"b", "gateway"⟩, ⟨"c", "gateway"⟩]
        [⟨"e1", "c", "a1"⟩])
      (Authoring.fpOf [⟨"a0", "actor"⟩, ⟨"a1", "frontend"⟩]) ⟨"b", "gateway"⟩ = 999 ∧
    (999 : ℚ) ≠ (0 : ℚ) ∧
    Authoring.bcSort [⟨"b", "gateway"⟩, ⟨"c", "gateway"⟩]
      (Authoring.buildAdj
        [⟨"a0", "actor"⟩, ⟨"a1", "frontend"⟩, ⟨"b", "gateway"⟩, ⟨"c", "gateway"⟩]
        [⟨"e1", "c", "a1"⟩])
      (Authoring.fpOf [⟨"a0", "actor"⟩, ⟨"a1", "frontend"⟩]) =
      [⟨"c", "gateway"⟩, ⟨"b", "gateway"⟩] := by
  refine ⟨by decide, by decide, by decide, by decide, ?_⟩
  have hB : Authoring.bcKey
      (Authoring.buildAdj
        [⟨"a0", "actor"⟩, ⟨"a1", "frontend"⟩, ⟨"b", "gateway"⟩, ⟨"c", "gateway"⟩]
        [⟨"e1", "c", "a1"⟩])
      (Authoring.fpOf [⟨"a0", "actor"⟩, ⟨"a1", "frontend"⟩]) ⟨"b", "gateway"⟩ =
      999 := by decide
  have h1 : Authoring.buildAdj
      [⟨"a0", "actor"⟩, ⟨"a1", "frontend"⟩, ⟨"b", "gateway"⟩, ⟨"c", "gateway"⟩]
      [⟨"e1", "c", "a1"⟩] "c" = ["a1"] := by decide
  have h2 : Authoring.fpOf [⟨"a0", "actor"⟩, ⟨"a1", "frontend"⟩] "a1" = some 1 := by
    decide
  have hC : Authoring.bcKey
      (Authoring.buildAdj
        [⟨"a0", "actor"⟩, ⟨"a1", "frontend"⟩, ⟨"b", "gateway"⟩, ⟨"c", "gateway"⟩]
        [⟨"e1", "c", "a1"⟩])
      (Authoring.fpOf [⟨"a0", "actor"⟩, ⟨"a1", "frontend"⟩]) ⟨"c", "gateway"⟩ =
      1 := by
    simp [Authoring.bcKey, h1, h2]
  have hkeys : List.map (fun n => (n, Authoring.bcKey
      (Authoring.buildAdj
        [⟨"a0", "actor"⟩, ⟨"a1", "frontend"⟩, ⟨"b", "gateway"⟩, ⟨"c", "gateway"⟩]
        [⟨"e1", "c", "a1"⟩])
      (Authoring.fpOf [⟨"a0", "actor"⟩, ⟨"a1", "frontend"⟩]) n))
      [(⟨"b", "gateway"⟩ : Node), ⟨"c", "gateway"⟩] =
      [(⟨"b", "gateway"⟩, (999 : ℚ)), (⟨"c", "gateway"⟩, 1)] := by
    rw [List.map_cons, List.map_cons, List.map_nil, hB, hC]
  unfold Authoring.bcSort
  rw [hkeys]
  decide

/-- Witness for the amended C3. -/
theorem claim3_witness :
    (∀ n ∈ ([⟨"b", "gateway"⟩] : List Node),
      ((fun _ => []) n.id).filter
        (fun j => (Authoring.fpOf [⟨"a0", "actor"⟩] j).isSome) = [] →
      Authoring.bcKey (fun _ => []) (Authoring.fpOf [⟨"a0", "actor"⟩]) n = 999) ∧
    (∀ n ∈ ([⟨"b", "gateway"⟩] : List Node), ∀ nb : List String,
      nb = ((fun _ => []) n.id).filter
        (fun j => (Authoring.fpOf [⟨"a0", "actor"⟩] j).isSome) →
      nb ≠ [] →
      Authoring.bcKey (fun _ => []) (Authoring.fpOf [⟨"a0", "actor"⟩]) n =
        (nb.map (fun j => (((Authoring.fpOf [⟨"a0", "actor"⟩] j).getD 0 : ℕ) : ℚ))).sum /
          (nb.length : ℚ)) ∧
    List.Perm
      (Authoring.bcSort [⟨"b", "gateway"⟩] (fun _ => [])
        (Authoring.fpOf [⟨"a0", "actor"⟩]))
      [⟨"b", "gateway"⟩] ∧
    ((Authoring.bcSort [⟨"b", "gateway"⟩] (fun _ => [])
        (Authoring.fpOf [⟨"a0", "actor"⟩])).map
      (Authoring.bcKey (fun _ => []) (Authoring.fpOf [⟨"a0", "actor"⟩]))).Pairwise
      (· ≤ ·) :=
  claim3_amended_barycenter_keys [⟨"a0", "actor"⟩] (fun _ => [])
    [⟨"b", "gateway"⟩] (by decide)

/-- C4: the merged layout takes the saved x/y (keeping the computed layer
index) exactly for nodes with a saved entry, keeps the computed entry
exactly for nodes without one, and contains exactly the nodes of the
computed layout. -/
theorem claim4_merge_correctness (base : List (String × Authoring.Pos))
    (saved : List (String × (ℚ × ℚ))) :
    (∀ (id : String) (s : ℚ × ℚ) (p : Authoring.Pos),
      jsGet saved id = some s → jsGet base id = some p →
      jsGet (Authoring.mergeLayout base saved) id = some ⟨s.1, s.2, p.layer⟩) ∧
    (∀ id : String, jsGet saved id = none →
      jsGet (Authoring.mergeLayout base saved) id = jsGet base id) ∧
    (∀ id : String, (jsGet (Authoring.mergeLayout base saved) id).isSome ↔
      (jsGet base id).isSome) := by
  have hkey : ∀ q : String × Authoring.Pos,
      ((fun q : String × Authoring.Pos =>
          match jsGet saved q.1 with
          | some s => (q.1, (⟨s.1, s.2, q.2.layer⟩ : Authoring.Pos))
          | none => q) q).1 = q.1 := by
    intro q
    cases h : jsGet saved q.1 <;> simp [h]
  refine ⟨?_, ?_, ?_⟩
  · intro id s p hs hp
    rw [Authoring.mergeLayout, jsGet_map_keyed _ hkey]
    unfold jsGet at hp
    obtain ⟨q0, hq0find, hq02⟩ := Option.map_eq_some'.mp hp
    have hq01 : q0.1 = id := by simpa using List.find?_some hq0find
    rw [hq0find]
    simp only [Option.map_some', Option.some.injEq]
    rw [hq01, hs, hq02]
  · intro id hs
    rw [Authoring.mergeLayout, jsGet_map_keyed _ hkey]
    have hbase : jsGet base id =
        (base.reverse.find? (fun q => q.1 == id)).map (·.2) := rfl
    rw [hbase]
    cases hfind : base.reverse.find? (fun q => q.1 == id) with
    | none => rfl
    | some q0 =>
      have hq01 : q0.1 = id := by simpa using List.find?_some hfind
      simp only [Option.map_some', Option.some.injEq]
      rw [hq01, hs]
  · intro id
    rw [Authoring.mergeLayout, jsGet_map_keyed _ hkey]
    unfold jsGet
    cases base.reverse.find? (fun q => q.1 == id) <;> simp

/-- Witness for C4: a saved entry overrides x/y and keeps the computed
layer. -/
theorem claim4_witness :
    jsGet (Authoring.mergeLayout [("a", ⟨1, 2, 3⟩)] [("a", (10, 20))]) "a" =
      some ⟨10, 20, 3⟩ :=
  (claim4_merge_correctness [("a", ⟨1, 2, 3⟩)] [("a", (10, 20))]).1 "a" (10, 20)
    ⟨1, 2, 3⟩ (by decide) (by decide)

theorem charListLE_total : ∀ xs ys : List Char,
    Authoring.charListLE xs ys = false → Authoring.charListLE ys xs = true
  | [], _, h => by simp [Authoring.charListLE] at h
  | _ :: _, [], _ => rfl
  | x :: xs, y :: ys, h => by
    unfold Authoring.charListLE at h ⊢
    by_cases h1 : x.toNat < y.toNat
    · rw [if_pos h1] at h
      exact absurd h (by simp)
    · rw [if_neg h1] at h
      by_cases h2 : y.toNat < x.toNat
      · rw [if_pos h2]
      · rw [if_neg h2] at h
        rw [if_neg h2, if_neg h1]
        exact charListLE_total xs ys h

theorem charListLE_trans : ∀ xs ys zs : List Char,
    Authoring.charListLE xs ys = true → Authoring.charListLE ys zs = true →
    Authoring.charListLE xs zs = true
  | [], _, _, _, _ => rfl
  | _ :: _, [], _, h1, _ => by simp [Authoring.charListLE] at h1
  | _ :: _, _ :: _, [], _, h2 => by simp [Authoring.charListLE] at h2
  | x :: xs, y :: ys, z :: zs, h1, h2 => by
    unfold Authoring.charListLE at h1 h2 ⊢
    by_cases a1 : x.toNat < y.toNat
    · by_cases a2 : y.toNat < z.toNat
      · have hxz : x.toNat < z.toNat := by omega
        rw [if_pos hxz]
      · by_cases a3 : z.toNat < y.toNat
        · rw [if_neg a2, if_pos a3] at h2
          exact absurd h2 (by simp)
        · have hxz : x.toNat < z.toNat := by omega
          rw [if_pos hxz]
    · rw [if_neg a1] at h1
      by_cases a4 : y.toNat < x.toNat
      · rw [if_pos a4] at h1
        exact absurd h1 (by simp)
      · rw [if_neg a4] at h1
        by_cases a2 : y.toNat < z.toNat
        · have hxz : x.toNat < z.toNat := by omega
          rw [if_pos hxz]
        · by_cases a3 : z.toNat < y.toNat
          · rw [if_neg a2, if_pos a3] at h2
            exact absurd h2 (by simp)
          · rw [if_neg a2, if_neg a3] at h2
            have hb1 : ¬ x.toNat < z.toNat := by omega
            have hb2 : ¬ z.toNat < x.toNat := by omega
            rw [if_neg hb1, if_neg hb2]
            exact charListLE_trans xs ys zs h1 h2

theorem charListLE_antisymm : ∀ xs ys : List Char,
    Authoring.charListLE xs ys = true → Authoring.charListLE ys xs = true →
    xs = ys
  | [], [], _, _ => rfl
  | [], _ :: _, _, h2 => by simp [Authoring.charListLE] at h2
  | _ :: _, [], h1, _ => by simp [Authoring.charListLE] at h1
  | x :: xs, y :: ys, h1, h2 => by
    unfold Authoring.charListLE at h1 h2
    by_cases a1 : x.toNat < y.toNat
    · have a3 : ¬ y.toNat < x.toNat := by omega
      rw [if_neg a3, if_pos a1] at h2
      exact absurd h2 (by simp)
    · by_cases a2 : y.toNat < x.toNat
      · rw [if_neg a1, if_pos a2] at h1
        exact absurd h1 (by simp)
      · rw [if_neg a1, if_neg a2] at h1
        rw [if_neg a2, if_neg a1] at h2
        have hnat : x.toNat = y.toNat := by omega
        have hchar : x = y := Char.ext (UInt32.toNat.inj hnat)
        rw [hchar, charListLE_antisymm xs ys h1 h2]

theorem strLE_antisymm (a b : String) (h1 : Authoring.strLE a b = true)
    (h2 : Authoring.strLE b a = true) : a = b := by
  have h := charListLE_antisymm a.data b.data h1 h2
  cases a
  cases b
  simp_all

theorem joinBar_length :
    ∀ l : List String, (Authoring.joinBar l).length =
      (l.map String.length).sum + (l.length - 1)
  | [] => rfl
  | [x] => by simp [Authoring.joinBar]
  | x :: y :: xs => by
    have ih := joinBar_length (y :: xs)
    have hbar : ("|" : String).length = 1 := rfl
    simp only [Authoring.joinBar, String.length_append, hbar, List.map_cons,
      List.sum_cons, List.length_cons] at ih ⊢
    omega

theorem stableSort_strLE_pairwise (l : List String) :
    (stableSort Authoring.strLE l).Pairwise
      (fun a b => Authoring.strLE a b = true) :=
  stableSort_pairwise Authoring.strLE
    (fun _ _ h => charListLE_total _ _ h)
    (fun _ _ _ h1 h2 => charListLE_trans _ _ _ h1 h2) l

theorem stableSort_strings_eq_of_perm (l1 l2 : List String)
    (h : List.Perm l1 l2) :
    stableSort Authoring.strLE l1 = stableSort Authoring.strLE l2 := by
  have hperm : List.Perm (stableSort Authoring.strLE l1)
      (stableSort Authoring.strLE l2) :=
    (stableSort_perm _ l1).trans (h.trans (stableSort_perm _ l2).symm)
  exact @List.eq_of_perm_of_sorted String
    (fun a b => Authoring.strLE a b = true)
    ⟨fun a b h1 h2 => strLE_antisymm a b h1 h2⟩ _ _ hperm
    (stableSort_strLE_pairwise l1) (stableSort_strLE_pairwise l2)

theorem layoutKey_eq_of_perm (ns1 ns2 : List Node)
    (h : List.Perm (ns1.map Node.id) (ns2.map Node.id)) :
    Authoring.layoutKey ns1 = Authoring.layoutKey ns2 := by
  unfold Authoring.layoutKey
  rw [stableSort_strings_eq_of_perm _ _ h]

theorem layoutKey_append_ne (ns : List Node) (x : Node)
    (hne : ns ≠ [] ∨ x.id ≠ "") :
    Authoring.layoutKey (ns ++ [x]) ≠ Authoring.layoutKey ns := by
  intro heq
  have hlen := congrArg String.length heq
  unfold Authoring.layoutKey at hlen
  rw [String.length_append, String.length_append, joinBar_length,
    joinBar_length] at hlen
  have hp1 : List.Perm (stableSort Authoring.strLE ((ns ++ [x]).map Node.id))
      ((ns.map Node.id) ++ [x.id]) := by
    simpa [List.map_append] using
      stableSort_perm Authoring.strLE ((ns ++ [x]).map Node.id)
  have hp2 := stableSort_perm Authoring.strLE (ns.map Node.id)
  have hs1 : ((stableSort Authoring.strLE
      ((ns ++ [x]).map Node.id)).map String.length).sum
      = ((ns.map Node.id).map String.length).sum + x.id.length := by
    have h2 := (hp1.map String.length).sum_eq
    simpa [List.map_append] using h2
  have hs2 : ((stableSort Authoring.strLE (ns.map Node.id)).map
      String.length).sum = ((ns.map Node.id).map String.length).sum :=
    (hp2.map String.length).sum_eq
  have hl1 : (stableSort Authoring.strLE ((ns ++ [x]).map Node.id)).length =
      ns.length + 1 := by simpa using hp1.length_eq
  have hl2 : (stableSort Authoring.strLE (ns.map Node.id)).length =
      ns.length := by simpa using hp2.length_eq
  rw [hs1, hs2, hl1, hl2] at hlen
  rcases hne with hne | hne
  · have hn0 : ns.length ≠ 0 := fun h0 => hne (List.length_eq_zero.mp h0)
    omega
  · have hx0 : x.id.length ≠ 0 := by
      intro h0
      apply hne
      cases hid : x.id with
      | mk d =>
        rw [hid] at h0
        simp [String.length] at h0
        simp [h0]
    omega

/-- C5 (amended): the persistence key is a deterministic function of the
sorted *list* of node identifiers.  On duplicate-free identifier lists
(the documented invariant) equal identifier sets give identical keys;
appending a node, or removing the node at any index, changes the key —
except in the degenerate case of an empty-identifier node added to or
removed from the empty node list; and a merge keyed by the new node set
against a store holding only the old key's record applies zero overrides
(the computed layout is returned unchanged). -/
theorem claim5_amended_key_invalidation :
    (∀ ns1 ns2 : List Node, (ns1.map Node.id).Nodup →
      (ns2.map Node.id).Nodup →
      (∀ id : String, id ∈ ns1.map Node.id ↔ id ∈ ns2.map Node.id) →
      Authoring.layoutKey ns1 = Authoring.layoutKey ns2) ∧
    (∀ (ns : List Node) (x : Node), ns ≠ [] ∨ x.id ≠ "" →
      Authoring.layoutKey (ns ++ [x]) ≠ Authoring.layoutKey ns) ∧
    (∀ (ns : List Node) (i : ℕ) (x : Node), ns[i]? = some x →
      ns.eraseIdx i ≠ [] ∨ x.id ≠ "" →
      Authoring.layoutKey (ns.eraseIdx i) ≠ Authoring.layoutKey ns) ∧
    (∀ (oldNodes newNodes : List Node) (edges : List Edge)
      (sv : List (String × (ℚ × ℚ))),
      Authoring.layoutKey newNodes ≠ Authoring.layoutKey oldNodes →
      Authoring.appPositions [(Authoring.layoutKey oldNodes, sv)]
        newNodes edges = Authoring.layout newNodes edges) := by
  refine ⟨?_, ?_, ?_, ?_⟩
  · intro ns1 ns2 h1 h2 hset
    exact layoutKey_eq_of_perm ns1 ns2
      ((List.perm_ext_iff_of_nodup h1 h2).mpr hset)
  · intro ns x hne
    exact layoutKey_append_ne ns x hne
  · intro ns i x hget hne
    obtain ⟨hilt, hi⟩ := List.getElem?_eq_some.mp hget
    have hx : x ∈ ns := hi ▸ List.getElem_mem hilt
    have hperm : List.Perm ns (ns.eraseIdx i ++ [x]) := by
      refine (List.perm_cons_erase hx).trans ?_ |>.trans
        (List.perm_append_singleton x (ns.eraseIdx i)).symm
      exact List.Perm.cons x (by rw [← hi]; exact List.erase_getElem hilt)
    intro heq
    have hkey : Authoring.layoutKey ns =
        Authoring.layoutKey (ns.eraseIdx i ++ [x]) :=
      layoutKey_eq_of_perm _ _ (hperm.map Node.id)
    exact layoutKey_append_ne (ns.eraseIdx i) x hne (by rw [← hkey, ← heq])
  · intro oldNodes newNodes edges sv hne
    unfold Authoring.appPositions
    have hbeq : (Authoring.layoutKey oldNodes ==
        Authoring.layoutKey newNodes) = false :=
      beq_eq_false_iff_ne.mpr (Ne.symm hne)
    have hget : jsGet [(Authoring.layoutKey oldNodes, sv)]
        (Authoring.layoutKey newNodes) = none := by
      simp [jsGet, List.find?, hbeq]
    rw [hget]

/-- Counterexample to C5 as stated: the key is built from the raw
identifier list, never deduplicated — `[a, a]` and `[a]` have equal
identifier sets but different keys — and appending an empty-identifier
node to the empty node list leaves the key unchanged. -/
theorem claim5_counterexample :
    (∀ id : String,
      id ∈ ([⟨"a", "actor"⟩, ⟨"a", "actor"⟩] : List Node).map Node.id ↔
      id ∈ ([⟨"a", "actor"⟩] : List Node).map Node.id) ∧
    Authoring.layoutKey [⟨"a", "actor"⟩, ⟨"a", "actor"⟩] ≠
      Authoring.layoutKey [⟨"a", "actor"⟩] ∧
    Authoring.layoutKey [⟨"", "actor"⟩] = Authoring.layoutKey [] := by
  refine ⟨?_, by decide, by decide⟩
  intro id
  simp

/-- Witness for the amended C5. -/
theorem claim5_witness :
    Authoring.layoutKey [⟨"a", "actor"⟩, ⟨"b", "cache"⟩] =
      Authoring.layoutKey [⟨"b", "cache"⟩, ⟨"a", "actor"⟩] ∧
    Authoring.layoutKey ([⟨"a", "actor"⟩] ++ [⟨"b", "cache"⟩]) ≠
      Authoring.layoutKey [⟨"a", "actor"⟩] ∧
    Authoring.layoutKey (([⟨"a", "actor"⟩] : List Node).eraseIdx 0) ≠
      Authoring.layoutKey [⟨"a", "actor"⟩] ∧
    Authoring.appPositions
      [(Authoring.layoutKey [⟨"a", "actor"⟩], [("a", ((1 : ℚ), (2 : ℚ)))])]
      [⟨"a", "actor"⟩, ⟨"b", "cache"⟩] [] =
      Authoring.layout [⟨"a", "actor"⟩, ⟨"b", "cache"⟩] [] :=
  ⟨claim5_amended_key_invalidation.1 [⟨"a", "actor"⟩, ⟨"b", "cache"⟩]
      [⟨"b", "cache"⟩, ⟨"a", "actor"⟩] (by decide) (by decide)
      (fun id => by simp; tauto),
   claim5_amended_key_invalidation.2.1 [⟨"a", "actor"⟩] ⟨"b", "cache"⟩
      (Or.inl (by decide)),
   claim5_amended_key_invalidation.2.2.1 [⟨"a", "actor"⟩] 0 ⟨"a", "actor"⟩
      (by decide) (Or.inr (by decide)),
   claim5_amended_key_invalidation.2.2.2 [⟨"a", "actor"⟩]
      [⟨"a", "actor"⟩, ⟨"b", "cache"⟩] [] [("a", ((1 : ℚ), (2 : ℚ)))]
      (by decide)⟩

/-- C6: port spreading for one (node, side) group: one port per edge of
the group, the single-edge port at the vertical midpoint, a group of
`N ≥ 2` edges spread evenly from 20% to 80% of the node's height in the
group's edge order (strictly increasing, hence distinct), and every
offset strictly inside `(0, height)`. -/
theorem claim6_port_spreading (kind : String) (y : ℚ) (eids : List String) :
    (Authoring.portsForGroup (Authoring.nodeDims kind).2 y eids).length =
      eids.length ∧
    (eids.length = 1 →
      ∀ pr ∈ Authoring.portsForGroup (Authoring.nodeDims kind).2 y eids,
        pr.2 = y + (Authoring.nodeDims kind).2 / 2) ∧
    (2 ≤ eids.length → ∀ (i : ℕ) (eid : String), eids[i]? = some eid →
      (Authoring.portsForGroup (Authoring.nodeDims kind).2 y eids)[i]? =
        some (eid, y + (Authoring.nodeDims kind).2 * (1/5) +
          ((i : ℚ) / ((eids.length : ℚ) - 1)) *
            ((Authoring.nodeDims kind).2 -
              (Authoring.nodeDims kind).2 * (1/5) * 2))) ∧
    (∀ (i j : ℕ) (pi pj : String × ℚ), i < j →
      (Authoring.portsForGroup (Authoring.nodeDims kind).2 y eids)[i]? =
        some pi →
      (Authoring.portsForGroup (Authoring.nodeDims kind).2 y eids)[j]? =
        some pj →
      pi.2 < pj.2) ∧
    (∀ pr ∈ Authoring.portsForGroup (Authoring.nodeDims kind).2 y eids,
      0 < pr.2 - y ∧ pr.2 - y < (Authoring.nodeDims kind).2) := by
  set h := (Authoring.nodeDims kind).2 with hh
  have hpos : 0 < h := nodeDims_h_pos kind
  have hgetp : ∀ (i : ℕ) (pr : String × ℚ),
      (Authoring.portsForGroup h y eids)[i]? = some pr →
      ∃ eid, eids[i]? = some eid ∧ pr =
        (eid, if eids.length = 1 then y + h / 2
          else y + h * (1/5) +
            ((i : ℚ) / ((eids.length : ℚ) - 1)) * (h - h * (1/5) * 2)) := by
    intro i pr hpr
    unfold Authoring.portsForGroup at hpr
    rw [List.getElem?_map, List.getElem?_enum] at hpr
    cases hi : eids[i]? with
    | none => rw [hi] at hpr; simp at hpr
    | some eid =>
      rw [hi] at hpr
      simp only [Option.map_some', Option.some.injEq] at hpr
      exact ⟨eid, rfl, hpr.symm⟩
  refine ⟨?_, ?_, ?_, ?_, ?_⟩
  · simp [Authoring.portsForGroup]
  · intro h1 pr hpr
    rcases List.mem_map.mp hpr with ⟨en, -, rfl⟩
    simp [h1]
  · intro hN i eid hi
    unfold Authoring.portsForGroup
    rw [List.getElem?_map, List.getElem?_enum, hi]
    simp only [Option.map_some', Option.some.injEq]
    rw [if_neg (by omega)]
  · intro i j pi pj hij hpi hpj
    obtain ⟨ei, hei, rfl⟩ := hgetp i pi hpi
    obtain ⟨ej, hej, rfl⟩ := hgetp j pj hpj
    have hjlt : j < eids.length := (List.getElem?_eq_some.mp hej).1
    by_cases h1 : eids.length = 1
    · omega
    · have hN : 2 ≤ eids.length := by omega
      rw [if_neg h1, if_neg h1]
      have hq : (0 : ℚ) < (eids.length : ℚ) - 1 := by
        have : (2 : ℚ) ≤ (eids.length : ℚ) := by exact_mod_cast hN
        linarith
      have hd : (0 : ℚ) < h - h * (1/5) * 2 := by linarith
      have hijq : (i : ℚ) < (j : ℚ) := by exact_mod_cast hij
      have hdiv : (i : ℚ) / ((eids.length : ℚ) - 1) <
          (j : ℚ) / ((eids.length : ℚ) - 1) :=
        (div_lt_div_right hq).mpr hijq
      simp only []
      have := mul_lt_mul_of_pos_right hdiv hd
      linarith
  · intro pr hpr
    rcases List.mem_map.mp hpr with ⟨en, hen, rfl⟩
    have hilt : en.1 < eids.length := by
      have := List.mem_enum_iff_getElem?.mp hen
      exact (List.getElem?_eq_some.mp this).1
    by_cases h1 : eids.length = 1
    · simp only [h1, if_pos]
      constructor <;> simp <;> linarith
    · have hN : 2 ≤ eids.length := by omega
      rw [if_neg h1]
      have hq : (0 : ℚ) < (eids.length : ℚ) - 1 := by
        have : (2 : ℚ) ≤ (eids.length : ℚ) := by exact_mod_cast hN
        linarith
      have ht0 : (0 : ℚ) ≤ (en.1 : ℚ) / ((eids.length : ℚ) - 1) :=
        div_nonneg (by positivity) hq.le
      have ht1 : (en.1 : ℚ) / ((eids.length : ℚ) - 1) ≤ 1 := by
        rw [div_le_one hq]
        have hle : en.1 ≤ eids.length - 1 := by omega
        have : (en.1 : ℚ) ≤ ((eids.length - 1 : ℕ) : ℚ) := by exact_mod_cast hle
        have hcast : ((eids.length - 1 : ℕ) : ℚ) = (eids.length : ℚ) - 1 := by
          have : 1 ≤ eids.length := by omega
          push_cast [this]
          ring
        linarith [hcast ▸ this]
      have hd : (0 : ℚ) < h - h * (1/5) * 2 := by linarith
      constructor
      · simp only []
        nlinarith
      · simp only []
        nlinarith
  
/-- Witness for C6 with a two-edge group on a microservice node. -/
theorem claim6_witness :
    (Authoring.portsForGroup (Authoring.nodeDims "microservice").2 10
      ["e1", "e2"]).length = (["e1", "e2"] : List String).length ∧
    ((["e1", "e2"] : List String).length = 1 →
      ∀ pr ∈ Authoring.portsForGroup (Authoring.nodeDims "microservice").2 10
        ["e1", "e2"],
        pr.2 = 10 + (Authoring.nodeDims "microservice").2 / 2) ∧
    (2 ≤ (["e1", "e2"] : List String).length →
      ∀ (i : ℕ) (eid : String), (["e1", "e2"] : List String)[i]? = some eid →
      (Authoring.portsForGroup (Authoring.nodeDims "microservice").2 10
        ["e1", "e2"])[i]? =
        some (eid, 10 + (Authoring.nodeDims "microservice").2 * (1/5) +
          ((i : ℚ) / (((["e1", "e2"] : List String).length : ℚ) - 1)) *
            ((Authoring.nodeDims "microservice").2 -
              (Authoring.nodeDims "microservice").2 * (1/5) * 2))) ∧
    (∀ (i j : ℕ) (pi pj : String × ℚ), i < j →
      (Authoring.portsForGroup (Authoring.nodeDims "microservice").2 10
        ["e1", "e2"])[i]? = some pi →
      (Authoring.portsForGroup (Authoring.nodeDims "microservice").2 10
        ["e1", "e2"])[j]? = some pj →
      pi.2 < pj.2) ∧
    (∀ pr ∈ Authoring.portsForGroup (Authoring.nodeDims "microservice").2 10
      ["e1", "e2"],
      0 < pr.2 - 10 ∧ pr.2 - 10 < (Authoring.nodeDims "microservice").2) :=
  claim6_port_spreading "microservice" 10 ["e1", "e2"]

/-- C7: for an edge with both endpoints positioned and present in the
node list, the edge exits the source's right side and enters the target's
left side exactly when the source's horizontal centre (from the live
coordinates) is ≤ the target's; otherwise the sides are swapped.  The
drag update rewrites only x/y and never changes any node's layer index. -/
theorem claim7_side_selection (e : Edge)
    (positions : List (String × Authoring.Pos)) (nodes : List Node)
    (py : List ((String × String) × ℚ)) (sp tp : Authoring.Pos)
    (sn tn : Node)
    (hsp : jsGet positions e.source = some sp)
    (htp : jsGet positions e.target = some tp)
    (hsn : Authoring.findNode nodes e.source = some sn)
    (htn : Authoring.findNode nodes e.target = some tn) :
    (∃ g : Authoring.PathGeom,
      Authoring.edgePath e positions nodes py = some g ∧
      (g.sx = sp.x + (Authoring.nodeDims sn.kind).1 ∧ g.tx = tp.x ↔
        sp.x + (Authoring.nodeDims sn.kind).1 / 2 ≤
          tp.x + (Authoring.nodeDims tn.kind).1 / 2)) ∧
    (∀ (nid : String) (nx ny : ℚ) (id : String),
      (jsGet (Authoring.dragUpdate positions nid nx ny) id).map
        Authoring.Pos.layer =
      (jsGet positions id).map Authoring.Pos.layer) := by
  constructor
  · unfold Authoring.edgePath
    rw [hsp, htp, hsn, htn]
    by_cases hc : sp.x + (Authoring.nodeDims sn.kind).1 / 2 ≤
        tp.x + (Authoring.nodeDims tn.kind).1 / 2
    · refine ⟨_, rfl, ?_⟩
      simp [hc]
    · refine ⟨_, rfl, ?_⟩
      have hw := nodeDims_w_pos sn.kind
      simp only [hc, decide_False, Bool.false_eq_true, if_false,
        iff_false, not_and]
      intro h1
      exact absurd h1 (by intro h2; linarith)
  · intro nid nx ny id
    unfold Authoring.dragUpdate
    cases hfind : jsGet positions nid with
    | none => rfl
    | some p =>
      by_cases hid : id = nid
      · subst hid
        rw [jsGet_append_single_self, hfind]
        rfl
      · rw [jsGet_append_single_other _ _ _ _ hid]

/-- Witness for C7: with "b" to the right of "a", the edge exits a's
right side and enters b's left side, and dragging preserves layers. -/
theorem claim7_witness :
    (∃ g : Authoring.PathGeom,
      Authoring.edgePath ⟨"e", "a", "b"⟩
        [("a", ⟨0, 0, 0⟩), ("b", ⟨300, 0, 1⟩)]
        [⟨"a", "actor"⟩, ⟨"b", "frontend"⟩] [] = some g ∧
      (g.sx = (0 : ℚ) + (Authoring.nodeDims "actor").1 ∧ g.tx = (300 : ℚ) ↔
        (0 : ℚ) + (Authoring.nodeDims "actor").1 / 2 ≤
          (300 : ℚ) + (Authoring.nodeDims "frontend").1 / 2)) ∧
    (∀ (nid : String) (nx ny : ℚ) (id : String),
      (jsGet (Authoring.dragUpdate [("a", ⟨0, 0, 0⟩), ("b", ⟨300, 0, 1⟩)]
        nid nx ny) id).map Authoring.Pos.layer =
      (jsGet [("a", (⟨0, 0, 0⟩ : Authoring.Pos)), ("b", ⟨300, 0, 1⟩)] id).map
        Authoring.Pos.layer) :=
  claim7_side_selection ⟨"e", "a", "b"⟩
    [("a", ⟨0, 0, 0⟩), ("b", ⟨300, 0, 1⟩)]
    [⟨"a", "actor"⟩, ⟨"b", "frontend"⟩] [] ⟨0, 0, 0⟩ ⟨300, 0, 1⟩
    ⟨"a", "actor"⟩ ⟨"b", "frontend"⟩ (by decide) (by decide) (by decide)
    (by decide)

/-- C10: an edge whose source or target has no position entry or no node
record gets no connector path (`null`) and contributes nothing to the
port index — removing it from the edge list leaves every other edge's
ports unchanged, and nothing fails. -/
theorem claim10_dangling_skip (e : Edge)
    (positions : List (String × Authoring.Pos)) (nodes : List Node)
    (py : List ((String × String) × ℚ)) (pre post : List Edge)
    (h : jsGet positions e.source = none ∨ jsGet positions e.target = none ∨
      Authoring.findNode nodes e.source = none ∨
      Authoring.findNode nodes e.target = none) :
    Authoring.edgePath e positions nodes py = none ∧
    Authoring.buildPortsLive (pre ++ e :: post) positions nodes =
      Authoring.buildPortsLive (pre ++ post) positions nodes := by
  constructor
  · unfold Authoring.edgePath
    cases hsp : jsGet positions e.source <;>
      cases htp : jsGet positions e.target <;>
        cases hsn : Authoring.findNode nodes e.source <;>
          cases htn : Authoring.findNode nodes e.target <;>
            simp_all
  · have hsm : Authoring.sideMaps (pre ++ e :: post) positions nodes =
        Authoring.sideMaps (pre ++ post) positions nodes := by
      unfold Authoring.sideMaps
      rw [List.foldl_append, List.foldl_append, List.foldl_cons]
      congr 1
      cases hsp : jsGet positions e.source <;>
        cases htp : jsGet positions e.target <;>
          cases hsn : Authoring.findNode nodes e.source <;>
            cases htn : Authoring.findNode nodes e.target <;>
              simp_all
    unfold Authoring.buildPortsLive
    rw [hsm]

/-- Witness for C10: an edge to the unknown id "zz" is skipped while the
self-loop edge "f" is still routed. -/
theorem claim10_witness :
    Authoring.edgePath ⟨"e", "a", "zz"⟩ [("a", ⟨0, 0, 0⟩)] [⟨"a", "actor"⟩]
      [] = none ∧
    Authoring.buildPortsLive ([⟨"f", "a", "a"⟩] ++ ⟨"e", "a", "zz"⟩ :: [])
      [("a", ⟨0, 0, 0⟩)] [⟨"a", "actor"⟩] =
    Authoring.buildPortsLive ([⟨"f", "a", "a"⟩] ++ [])
      [("a", ⟨0, 0, 0⟩)] [⟨"a", "actor"⟩] :=
  claim10_dangling_skip ⟨"e", "a", "zz"⟩ [("a", ⟨0, 0, 0⟩)] [⟨"a", "actor"⟩]
    [] [⟨"f", "a", "a"⟩] [] (Or.inr (Or.inl (by decide)))

/-- C8: with the renderer's theme constants equal to the authoring tool's
(layer spacing 210, vertical gap 90, margin 52, same per-shape
width/height table), the two independent implementations produce the same
per-layer orderings and the same {x, y, layer} for every node. -/
theorem claim8_refinement (nodes : List Node) (edges : List Edge)
    (thm : Renderer.Theme)
    (hs : thm.layer_spacing_x = 210) (hg : thm.node_spacing_y = 90)
    (hm : thm.margin = 52)
    (hd : ∀ kind, Renderer.getNodeDims kind thm = Authoring.nodeDims kind) :
    Renderer.bestLayers nodes edges = Authoring.bestLayers nodes edges ∧
    ∀ id : String,
      (jsGet (Renderer.computeLayout nodes edges thm) id).map
        (fun p => (p.x, p.y, p.layer)) =
      (jsGet (Authoring.layout nodes edges) id).map
        (fun p => (p.x, p.y, p.layer)) := by
  refine ⟨renderer_bestLayers_eq nodes edges, ?_⟩
  have hplace :
      (Renderer.place thm (Renderer.layerIdxsOf nodes)
        (Renderer.bestLayers nodes edges)).map
          (fun q => (q.1, (q.2.x, q.2.y, q.2.layer))) =
      (Authoring.place (Authoring.layerIdxsOf nodes)
        (Authoring.bestLayers nodes edges)).map
          (fun q => (q.1, (q.2.x, q.2.y, q.2.layer))) := by
    rw [renderer_bestLayers_eq]
    have hli : Renderer.layerIdxsOf = Authoring.layerIdxsOf := rfl
    rw [hli]
    unfold Renderer.place Authoring.place
    rw [List.map_flatMap, List.map_flatMap]
    congr 1
    funext q
    rw [List.map_map, List.map_map]
    congr 1
    funext p
    have hdk := congrArg Prod.snd (hd p.2.kind)
    simp only [Function.comp_apply]
    simp [hm, hs, hg, hdk, Authoring.MARGIN, Authoring.LAYER_X_GAP,
      Authoring.NODE_Y_GAP]
  intro id
  have h1 := congrArg (fun m => jsGet m id) hplace
  simp only at h1
  rw [jsGet_proj (fun p : Renderer.PosR => (p.x, p.y, p.layer)),
    jsGet_proj (fun p : Authoring.Pos => (p.x, p.y, p.layer))] at h1
  exact h1

/-- Witness for C8 with the default theme constants. -/
theorem claim8_witness :
    Renderer.bestLayers [⟨"a", "actor"⟩, ⟨"d", "database"⟩] [⟨"e", "a", "d"⟩] =
      Authoring.bestLayers [⟨"a", "actor"⟩, ⟨"d", "database"⟩]
        [⟨"e", "a", "d"⟩] ∧
    ∀ id : String,
      (jsGet (Renderer.computeLayout [⟨"a", "actor"⟩, ⟨"d", "database"⟩]
        [⟨"e", "a", "d"⟩]
        ⟨210, 90, 52, 150, 62, fun s =>
          if s = "diamond" then some (some 76, some 76)
          else if s = "cylinder" then some (some 136, some 68)
          else if s = "person" then some (some 58, some 76)
          else none⟩) id).map (fun p => (p.x, p.y, p.layer)) =
      (jsGet (Authoring.layout [⟨"a", "actor"⟩, ⟨"d", "database"⟩]
        [⟨"e", "a", "d"⟩]) id).map (fun p => (p.x, p.y, p.layer)) :=
  claim8_refinement [⟨"a", "actor"⟩, ⟨"d", "database"⟩] [⟨"e", "a", "d"⟩]
    ⟨210, 90, 52, 150, 62, fun s =>
      if s = "diamond" then some (some 76, some 76)
      else if s = "cylinder" then some (some 136, some 68)
      else if s = "person" then some (some 58, some 76)
      else none⟩
    rfl rfl rfl
    (by
      intro kind
      unfold Renderer.getNodeDims Renderer.getShapeForKind Renderer.jsOrNum
        Authoring.nodeDims
      split_ifs <;> simp_all <;> norm_num)
